import Mathlib

/-!
# goloop: account ledger, transaction execution and validator caches

A shallow embedding of

* `icon/iiss/context.go` (the ledger primitives of `worldContextImpl` and
  `callContextImpl.Burn`),
* `service/transaction/transactionhandler.go` (`NewTransactionHandler` and
  `transactionHandler.Execute`),
* `icon/iiss/icstate/prepcache.go` (`PRepBaseCache` and `PRepStatusCache`),

followed by the theorems that settle the specification's claims about them.

Conventions of the embedding:

* a `*big.Int` that the code tests against `nil` is an `Option Int`; a
  `*big.Int` that the code dereferences without a test is an `Int`;
* a Go method that mutates its receiver and returns an `error` becomes a
  function from the state to the pair of the new state and `Option` error
  (`none` is Go's `nil` error), so that a partial effect of a failing call
  stays visible;
* the account store maps an account identifier to its balance, an absent
  account having balance zero;
* a Go pointer to a record is a reference into a heap of objects, a `panic`
  is the error of an `Except`, and a `range` over a Go map visits a list of
  entries.
-/

namespace Goloop

/-! ## Data model -/

/-- Modelled from the spec: the type `module.Address` is declared outside the
sources at hand. The sources use four things of an address: its bytes
(`address.Bytes()`, and `common.BytesToAddress` back), its account identifier
(`address.ID()`), its kind (`to.IsContract()`) and the comparison
`from.Equal(to)`. An address is modelled by the number that its bytes spell:
a leading part for the kind, followed by the account identifier. -/
structure Address where
  bytes : Nat
deriving DecidableEq

/-- Modelled from the spec: the number of account identifiers, the bytes of an
address after its leading part being taken to be 160 bits. -/
def Address.idSpace : Nat := 1461501637330902918203684832716283019655932542976

/-- Modelled from the spec: the method `address.ID()`, the key of the account
in the world state: the bytes of the address without the leading part. Two
addresses of different kind can have the same identifier. -/
def Address.ID (a : Address) : Nat := a.bytes % Address.idSpace

/-- Modelled from the spec: the method `from.Equal(to)`: the same address,
kind and identifier. -/
def Address.Equal (a b : Address) : Bool := decide (a = b)

/-- The method `Sign` of Go's `big.Int`: -1, 0 or +1. -/
def Sign (x : Int) : Int :=
  if x < 0 then -1 else if x = 0 then 0 else 1

/-- The errors built by `errors.Errorf` in `context.go`, one constructor per
message: "Invalid amount: %v" (the specification's `InvalidAmount`),
"Invalid balance: address=%v balance=%v" (its `InsufficientBalance`) and
"TotalSupply < 0" (its `SupplyUnderflow`). -/
inductive LedgerError where
  | invalidAmount (amount : Option Int)
  | invalidBalance (address : Address) (balance : Int)
  | totalSupplyNegative
deriving DecidableEq

/-- The part of `state.WorldContext` that the ledger reads and writes: the
balance of every account and the variable `VarTotalSupply` of the system
account (`none` while it was never set). -/
structure WorldState where
  balances : Nat → Int
  totalSupply : Option Int

/-- The method `as.SetBalance(balance)` of the account state `acct`. -/
def WorldState.SetBalance (ws : WorldState) (acct : Nat) (balance : Int) : WorldState :=
  { ws with balances := fun a => if a = acct then balance else ws.balances a }

/-- Every account holds a non-negative balance (the data-model invariant). -/
def WorldState.NonNegative (ws : WorldState) : Prop :=
  ∀ a : Nat, 0 ≤ ws.balances a

/-! ## `context.go`: the ledger -/

/-- `validateAmount` (context.go:16-21). -/
def validateAmount (amount : Option Int) : Option LedgerError :=
  match amount with
  | none => some (.invalidAmount none)
  | some v => if Sign v < 0 then some (.invalidAmount (some v)) else none

/-- `setBalance` (context.go:23-32); `acct` is the account state `as`. -/
def setBalance (address : Address) (ws : WorldState) (acct : Nat) (balance : Int) :
    WorldState × Option LedgerError :=
  if Sign balance < 0 then
    (ws, some (.invalidBalance address balance))
  else
    (ws.SetBalance acct balance, none)

namespace worldContextImpl

/-- `worldContextImpl.GetBalance` (context.go:42-45). -/
def GetBalance (ctx : WorldState) (address : Address) : Int :=
  ctx.balances address.ID

/-- `worldContextImpl.addBalance` (context.go:85-89). -/
def addBalance (ctx : WorldState) (address : Address) (amount : Int) :
    WorldState × Option LedgerError :=
  let acct := address.ID
  let ob := ctx.balances acct
  setBalance address ctx acct (ob + amount)

/-- `worldContextImpl.Deposit` (context.go:47-55). After `validateAmount` has
passed the amount is not nil, so `getD` never takes its default. -/
def Deposit (ctx : WorldState) (address : Address) (amount : Option Int) :
    WorldState × Option LedgerError :=
  match validateAmount amount with
  | some err => (ctx, some err)
  | none =>
    let amt := amount.getD 0
    if Sign amt = 0 then (ctx, none)
    else addBalance ctx address amt

/-- `worldContextImpl.Withdraw` (context.go:57-65). -/
def Withdraw (ctx : WorldState) (address : Address) (amount : Option Int) :
    WorldState × Option LedgerError :=
  match validateAmount amount with
  | some err => (ctx, some err)
  | none =>
    let amt := amount.getD 0
    if Sign amt = 0 then (ctx, none)
    else addBalance ctx address (-amt)

/-- `worldContextImpl.Transfer` (context.go:67-83): debit first, then credit;
the state reached by a successful debit is kept when the credit fails. -/
def Transfer (ctx : WorldState) (from_ to_ : Address) (amount : Option Int) :
    WorldState × Option LedgerError :=
  match validateAmount amount with
  | some err => (ctx, some err)
  | none =>
    let amt := amount.getD 0
    if Sign amt = 0 || from_.Equal to_ then (ctx, none)
    else
      match addBalance ctx from_ (-amt) with
      | (ctx1, some err) => (ctx1, some err)
      | (ctx1, none) =>
        match addBalance ctx1 to_ amt with
        | (ctx2, some err) => (ctx2, some err)
        | (ctx2, none) => (ctx2, none)

/-- `worldContextImpl.GetTotalSupply` (context.go:92-99). -/
def GetTotalSupply (ctx : WorldState) : Int :=
  match ctx.totalSupply with
  | some ts => ts
  | none => 0

/-- `worldContextImpl.AddTotalSupply` (context.go:101-113). The result is the
new state, the returned `*big.Int` (`none` is `nil`) and the error. The write
`varDB.Set(ts)` goes to the variable store, which is outside the sources at
hand; it is taken to store the value and return no error. -/
def AddTotalSupply (ctx : WorldState) (amount : Int) :
    WorldState × Option Int × Option LedgerError :=
  let oldTs := match ctx.totalSupply with
    | some v => v
    | none => 0
  let ts := oldTs + amount
  if Sign ts < 0 then
    (ctx, none, some .totalSupplyNegative)
  else
    ({ ctx with totalSupply := some ts }, some ts, none)

end worldContextImpl

/-! ## `context.go`: the call context -/

/-- One field of an event: the argument of `[]byte(sig)`, of
`address.Bytes()` or of `intconv.BigIntToBytes(v)`; the byte encodings
themselves are outside the sources at hand. -/
inductive EventField where
  | text (s : String)
  | address (a : Address)
  | int (v : Int)
deriving DecidableEq

/-- The arguments of one call of `cc.OnEvent(addr, indexed, data)`. -/
structure Event where
  addr : Address
  indexed : List EventField
  data : List EventField
deriving DecidableEq

/-- Constants that `context.go` takes from the packages `state` and
`icmodule`, whose declarations are outside the sources at hand. -/
structure Constants where
  SystemAddress : Address
  RevisionBurnV2 : Int
  RevisionFixBurnEventSignature : Int

/-- The state behind a `callContextImpl`: the embedded world context, the
events passed to `cc.OnEvent` so far (oldest first), the value of
`ctx.Revision().Value()` and the field `from`. -/
structure callContextImpl where
  world : WorldState
  events : List Event
  revision : Int
  from_ : Address

namespace callContextImpl

/-- `callContextImpl.OnEvent` (context.go:175-177). -/
def OnEvent (ctx : callContextImpl) (addr : Address) (indexed data : List EventField) :
    callContextImpl :=
  { ctx with events := ctx.events ++ [⟨addr, indexed, data⟩] }

/-- A method of the embedded `icmodule.WorldContext` called on a
`callContextImpl` (Go promotes it): it runs on the world state and leaves the
other fields alone. -/
def promoted (ctx : callContextImpl)
    (op : WorldState → WorldState × Option LedgerError) :
    callContextImpl × Option LedgerError :=
  let r := op ctx.world
  ({ ctx with world := r.1 }, r.2)

/-- `ctx.Deposit` on a call context. -/
def Deposit (ctx : callContextImpl) (address : Address) (amount : Option Int) :=
  ctx.promoted (fun w => worldContextImpl.Deposit w address amount)

/-- `ctx.Withdraw` on a call context. -/
def Withdraw (ctx : callContextImpl) (address : Address) (amount : Option Int) :=
  ctx.promoted (fun w => worldContextImpl.Withdraw w address amount)

/-- `ctx.Transfer` on a call context. -/
def Transfer (ctx : callContextImpl) (from_ to_ : Address) (amount : Option Int) :=
  ctx.promoted (fun w => worldContextImpl.Transfer w from_ to_ amount)

/-- `callContextImpl.OnBurn` (context.go:150-169). -/
def OnBurn (K : Constants) (ctx : callContextImpl) (address : Address) (amount ts : Int) :
    callContextImpl :=
  let rev := ctx.revision
  if rev < K.RevisionBurnV2 then
    let burnSig : String :=
      if rev < K.RevisionFixBurnEventSignature then "ICXBurned" else "ICXBurned(int)"
    ctx.OnEvent K.SystemAddress [.text burnSig] [.int amount]
  else
    ctx.OnEvent K.SystemAddress
      [.text "ICXBurnedV2(Address,int,int)", .address address]
      [.int amount, .int ts]

/-- `callContextImpl.Burn` (context.go:135-148). The amount is dereferenced
without a nil test, so it is an `Int`. -/
def Burn (K : Constants) (ctx : callContextImpl) (address : Address) (amount : Int) :
    callContextImpl × Option LedgerError :=
  let sign := Sign amount
  if sign < 0 then
    (ctx, some (.invalidAmount (some amount)))
  else if sign > 0 then
    match worldContextImpl.AddTotalSupply ctx.world (-amount) with
    | (_, _, some err) => (ctx, some err)
    | (w, ts, none) =>
      (OnBurn K { ctx with world := w } address amount (ts.getD 0), none)
  else
    (ctx, none)

end callContextImpl

/-! ## `transactionhandler.go`: `Execute` -/

/-- A non-nil `error` used as a transaction status; only its code, the value
of `errors.CodeOf`, is observed. -/
structure Status where
  code : Nat
deriving DecidableEq

/-- What `transactionhandler.go` takes from the packages `errors` and
`scoreresult`, whose declarations are outside the sources at hand: the code
`errors.CodeOf(nil)`, the code `errors.ExecutionFailError`, the predicate
`errors.IsCriticalCode` and the two errors `scoreresult.ErrOutOfStep` and
`scoreresult.ErrOutOfBalance`. -/
structure ErrorPkg where
  Success : Nat
  ExecutionFailError : Nat
  IsCriticalCode : Nat → Bool
  ErrOutOfStep : Status
  ErrOutOfBalance : Status

/-- The function `errors.CodeOf` on a status that may be nil. -/
def CodeOf (E : ErrorPkg) (status : Option Status) : Nat :=
  match status with
  | none => E.Success
  | some st => st.code

/-- The step types passed to `ApplySteps`. -/
inductive StepType where
  | StepTypeDefault
  | StepTypeInput
deriving DecidableEq

/-- What `th.cc.Call(th.chandler)` hands back: the status, the created
address and the world state it leaves behind. -/
structure CallResult where
  status : Option Status
  addr : Option Address
  world : WorldState

/-- The resolved `contract.ContractHandler`, an external collaborator: the
answers of `ApplySteps`, the value of `StepUsed()` once metering and
invocation are over (no method of the handler runs between the reads of it in
`Execute`), and the effect of the call on the world state. -/
structure ContractHandler where
  ApplySteps : StepType → Int → Bool
  StepUsed : Int
  Call : WorldState → CallResult

/-- The fields of `transactionHandler` that `Execute` reads; `dataBytes` is
the result of `measureBytesOfData(ctx.Revision(), th.data)`, a function
outside the sources at hand. -/
structure transactionHandler where
  from_ : Address
  chandler : ContractHandler
  dataBytes : Except Status Int

/-- The values `Execute` reads from its `contract.Context`: the world state
and `ctx.StepPrice()`. -/
structure Context where
  world : WorldState
  stepPrice : Int

/-- The receipt after `SetResult(s, stepUsed, stepPrice, addr)`; the status
`s` of `scoreresult.StatusOf(status)` is represented by `status` itself,
`none` being success. -/
structure Receipt where
  status : Option Status
  stepUsed : Int
  stepPrice : Int
  addr : Option Address

/-- How lines 114-143 of `Execute` end: by a `return nil, err`, or by falling
through to fee settlement with a status, a created address and the current
world state. -/
inductive Invoked where
  | abort (err : Option Status) (world : WorldState)
  | settle (status : Option Status) (addr : Option Address) (world : WorldState)

/-- The local variables of the settlement loop (transactionhandler.go:146-163)
and the world state, with two counters that are not in the source:
`iterations` counts the runs of the loop body and `rollbacks` the runs of its
first branch (`ctx.Reset(wcs)`, line 155). -/
structure FeeState where
  status : Option Status
  stepPrice : Int
  fee : Int
  bal : Int
  world : WorldState
  iterations : Nat
  rollbacks : Nat

/-- What `Execute` returns, `(receipt, err)`, with the world state it leaves
and the two counters of the settlement loop. -/
structure ExecResult where
  receipt : Option Receipt
  err : Option Status
  world : WorldState
  iterations : Nat
  rollbacks : Nat

namespace transactionHandler

/-- Lines 114-143 of `Execute`: base and input step charge, invocation,
rollback on failure and the early returns. `wcs := ctx.GetSnapshot()` is the
world state at entry; lines 103-111 touch the logger and the handler only. -/
def invoke (E : ErrorPkg) (th : transactionHandler) (ctx : Context) : Invoked :=
  let wcs := ctx.world
  if !th.chandler.ApplySteps .StepTypeDefault 1 then
    .settle (some E.ErrOutOfStep) none ctx.world
  else
    match th.dataBytes with
    | .error err => .abort (some err) ctx.world
    | .ok cnt =>
      if !th.chandler.ApplySteps .StepTypeInput cnt then
        .settle (some E.ErrOutOfStep) none ctx.world
      else
        let r := th.chandler.Call ctx.world
        let world := match r.status with
          | some _ => wcs
          | none => r.world
        let code := CodeOf E r.status
        if code = E.ExecutionFailError || E.IsCriticalCode code then
          .abort r.status world
        else
          .settle r.status r.addr world

/-- The body of the loop `for bal.Cmp(fee) < 0` (lines 152-162); `payer` is
the account `th.from.ID()` behind `as`. -/
def feeStep (E : ErrorPkg) (wcs : WorldState) (stepUsed : Int) (payer : Nat)
    (s : FeeState) : FeeState :=
  match s.status with
  | none =>
    { s with
      status := some E.ErrOutOfBalance
      world := wcs
      bal := wcs.balances payer
      fee := stepUsed * s.stepPrice
      iterations := s.iterations + 1
      rollbacks := s.rollbacks + 1 }
  | some _ =>
    { s with
      stepPrice := 0
      fee := 0
      iterations := s.iterations + 1 }

/-- The loop `for bal.Cmp(fee) < 0` (line 151), allowed `fuel` runs of its
body; `none` when the condition still holds after them. -/
def feeLoop (E : ErrorPkg) (wcs : WorldState) (stepUsed : Int) (payer : Nat) :
    Nat → FeeState → Option FeeState
  | 0, s => if s.bal < s.fee then none else some s
  | fuel + 1, s =>
    if s.bal < s.fee then feeLoop E wcs stepUsed payer fuel (feeStep E wcs stepUsed payer s)
    else some s

/-- Lines 146-165 of `Execute`: the fee, the loop and the debit
`bal.Sub(bal, fee); as.SetBalance(bal)`, which writes the balance without the
ledger's `setBalance` check. -/
def settleFee (fuel : Nat) (E : ErrorPkg) (th : transactionHandler) (wcs : WorldState)
    (stepPrice : Int) (status : Option Status) (world : WorldState) : Option FeeState :=
  let payer := th.from_.ID
  let fee := th.chandler.StepUsed * stepPrice
  let bal := world.balances payer
  match feeLoop E wcs th.chandler.StepUsed payer fuel ⟨status, stepPrice, fee, bal, world, 0, 0⟩ with
  | none => none
  | some s =>
    some { s with bal := s.bal - s.fee, world := s.world.SetBalance payer (s.bal - s.fee) }

/-- `transactionHandler.Execute` (transactionhandler.go:98-174), the
settlement loop being allowed `fuel` runs of its body. -/
def Execute (fuel : Nat) (E : ErrorPkg) (th : transactionHandler) (ctx : Context) :
    Option ExecResult :=
  match invoke E th ctx with
  | .abort err world => some ⟨none, err, world, 0, 0⟩
  | .settle status addr world =>
    match settleFee fuel E th ctx.world ctx.stepPrice status world with
    | none => none
    | some s =>
      some ⟨some ⟨s.status, th.chandler.StepUsed, s.stepPrice, addr⟩, none, s.world,
        s.iterations, s.rollbacks⟩

end transactionHandler

/-! ## `transactionhandler.go`: `NewTransactionHandler` -/

/-- The contract types of the package `contract` that `NewTransactionHandler`
chooses from, `CTypeNone` being its "invalid contract type". -/
inductive CType where
  | CTypeNone
  | CTypeTransfer
  | CTypeCall
  | CTypeDeploy
  | CTypeTransferAndCall
  | CTypePatch
deriving DecidableEq

/-- The constant `DataTypeMessage` (transactionhandler.go:18). -/
def DataTypeMessage : String := "message"

/-- The constant `DataTypeCall` (transactionhandler.go:19). -/
def DataTypeCall : String := "call"

/-- The constant `DataTypeDeploy` (transactionhandler.go:20). -/
def DataTypeDeploy : String := "deploy"

/-- The constant `DataTypePatch` (transactionhandler.go:21). -/
def DataTypePatch : String := "patch"

/-- The two errors of `NewTransactionHandler`:
`InvalidFormat.Errorf("IllegalDataType(type=%s)", *dataType)` and
`errors.InvalidStateError.New("NoSuitableHandler")`. -/
inductive TxError where
  | InvalidFormat (dataType : String)
  | NoSuitableHandler
deriving DecidableEq

/-- The `contract.ContractManager`, an external collaborator: its method
`GetHandler(from, to, value, stepLimit, ctype, data)`, `none` being a nil
handler. -/
structure ContractManager where
  GetHandler : Address → Address → Option Int → Option Int → CType → List Nat →
    Option ContractHandler

/-- The handler that `NewTransactionHandler` returns: the fields it sets
(the receipt `txresult.NewReceipt(to)` holds nothing yet). -/
structure TransactionHandler where
  from_ : Address
  to_ : Address
  value : Option Int
  stepLimit : Option Int
  dataType : Option String
  data : List Nat
  chandler : ContractHandler

/-- Lines 56-84 of `NewTransactionHandler`: the contract type, or the early
return with `InvalidFormat`. `toIsContract` is `th.to.IsContract()`. -/
def classify (toIsContract : Bool) (value : Option Int) (dataType : Option String) :
    Except TxError CType :=
  match dataType with
  | none =>
    if toIsContract then .ok .CTypeTransferAndCall else .ok .CTypeTransfer
  | some dt =>
    if dt = DataTypeMessage then
      if toIsContract then .ok .CTypeTransferAndCall else .ok .CTypeTransfer
    else if dt = DataTypeDeploy then
      .ok .CTypeDeploy
    else if dt = DataTypeCall then
      match value with
      | some v => if Sign v = 1 then .ok .CTypeTransferAndCall else .ok .CTypeCall
      | none => .ok .CTypeCall
    else if dt = DataTypePatch then
      .ok .CTypePatch
    else
      .error (.InvalidFormat dt)

/-- `NewTransactionHandler` (transactionhandler.go:45-92). `IsContract` is the
method of `module.Address`, a type declared outside the sources at hand. -/
def NewTransactionHandler (IsContract : Address → Bool) (cm : ContractManager)
    (from_ to_ : Address) (value stepLimit : Option Int) (dataType : Option String)
    (data : List Nat) : Except TxError TransactionHandler :=
  match classify (IsContract to_) value dataType with
  | .error err => .error err
  | .ok ctype =>
    match cm.GetHandler from_ to_ value stepLimit ctype data with
    | none => .error .NoSuitableHandler
    | some chandler => .ok ⟨from_, to_, value, stepLimit, dataType, data, chandler⟩

/-! ## `prepcache.go`: objects, store and Go maps

The caches hold pointers: the record that `Get` returns is the one the cache
keeps, and the caller writes to it. Pointers are modelled by references into
a heap of objects. -/

/-- A heap of objects of type `α`: `obj r` is the object behind the pointer
`r`, and `next` is the pointer the next allocation returns. -/
structure Heap (α : Type) where
  next : Nat
  obj : Nat → α

/-- Allocation of a new object (`&T{...}` in Go): the fresh pointer and the
heap that holds the object behind it. -/
def Heap.alloc {α : Type} (h : Heap α) (v : α) : Nat × Heap α :=
  (h.next, ⟨h.next + 1, fun r => if r = h.next then v else h.obj r⟩)

/-- A write through the pointer `r`. -/
def Heap.write {α : Type} (h : Heap α) (r : Nat) (v : α) : Heap α :=
  ⟨h.next, fun x => if x = r then v else h.obj x⟩

/-- Modelled from the spec: the record types `PRepBase` and `PRepStatus` are
declared outside the sources at hand. Of their field values only two things
are used: the values `zero` of a new record (`NewPRepBase()`,
`NewPRepStatus()`) and the test `IsEmpty` ("semantically default"). -/
structure RecordModel (F : Type) where
  zero : F
  IsEmpty : F → Bool

/-- Modelled from the spec: a `PRepBase` instance, namely its field values
and the flag `readonly` (section 3: "`true` means it is a frozen snapshot
possibly shared by other contexts and must not be mutated in place"). -/
structure PRepBase (F : Type) where
  readonly : Bool
  fields : F

/-- Modelled from the spec: `NewPRepBase()`, a new empty record, not frozen. -/
def NewPRepBase {F : Type} (M : RecordModel F) : PRepBase F := ⟨false, M.zero⟩

/-- Modelled from the spec: `base.IsReadonly()`. -/
def PRepBase.IsReadonly {F : Type} (base : PRepBase F) : Bool := base.readonly

/-- Modelled from the spec: `base.IsEmpty()`. -/
def PRepBase.IsEmpty {F : Type} (M : RecordModel F) (base : PRepBase F) : Bool :=
  M.IsEmpty base.fields

/-- Modelled from the spec: the value of `base.Clone()`, an owned copy with
the same field values, not frozen (section 9: "mutation requires producing a
new owned copy"). -/
def PRepBase.Clone {F : Type} (base : PRepBase F) : PRepBase F := ⟨false, base.fields⟩

/-- Modelled from the spec: the record after `base.freeze()` ("mark
`readonly = true`"). -/
def PRepBase.freeze {F : Type} (base : PRepBase F) : PRepBase F := ⟨true, base.fields⟩

/-- Modelled from the spec: a `PRepStatus` instance, namely its field values;
`prepcache.go` tests no flag of it. -/
structure PRepStatus (S : Type) where
  fields : S

/-- Modelled from the spec: `NewPRepStatus()`. -/
def NewPRepStatus {S : Type} (M : RecordModel S) : PRepStatus S := ⟨M.zero⟩

/-- Modelled from the spec: `status.IsEmpty()`. -/
def PRepStatus.IsEmpty {S : Type} (M : RecordModel S) (status : PRepStatus S) : Bool :=
  M.IsEmpty status.fields

/-- Modelled from the spec: the value of `status.Clone()`. -/
def PRepStatus.Clone {S : Type} (status : PRepStatus S) : PRepStatus S := ⟨status.fields⟩

/-- Modelled from the spec: the instance after `status.Set(other)`, which
copies the fields of `other` into it. -/
def PRepStatus.Set {S : Type} (_status other : PRepStatus S) : PRepStatus S :=
  ⟨other.fields⟩

/-- Modelled from the spec: `icutils.ToKey(owner)`, the "address-derived key"
of a cache entry; the key is taken to be the bytes of the address. -/
def ToKey (owner : Address) : Nat := owner.bytes

/-- Modelled from the spec: `common.BytesToAddress([]byte(k))`, `none` being
its error; a key made by `ToKey` decodes to its address. -/
def BytesToAddress (k : Nat) : Option Address := some ⟨k⟩

/-- Modelled from the spec: the contents of a `containerdb.DictDB`, "a
dictionary keyed by address": per address the object handed to `Set`
(`icobject.New(type, base)` wraps the pointer `base`, and
`ToPRepBase(o.Object())` is that pointer again), `none` where `Get` returns
nil. -/
structure DictDB where
  entries : Address → Option Nat

/-- Modelled from the spec: `dict.Get(owner)`. -/
def DictDB.Get (d : DictDB) (owner : Address) : Option Nat := d.entries owner

/-- Modelled from the spec: `dict.Set(key, o)`; its error is only logged by
the callers and is taken not to occur. -/
def DictDB.Set (d : DictDB) (key : Address) (o : Nat) : DictDB :=
  ⟨fun a => if a = key then some o else d.entries a⟩

/-- Modelled from the spec: `dict.Delete(key)`; its error is only logged by
the callers and is taken not to occur. -/
def DictDB.Delete (d : DictDB) (key : Address) : DictDB :=
  ⟨fun a => if a = key then none else d.entries a⟩

/-- The object store behind a cache: the objects and the dictionary. Two
caches over the same store see the same `ObjectStore`. -/
structure ObjectStore (α : Type) where
  heap : Heap α
  dict : DictDB

/-- A Go `map[string]*T`: its entries, key and pointer, in the order in which
`range` visits them (Go leaves the order open; every list is an order). -/
structure GoMap where
  entries : List (Nat × Nat)

/-- The lookup `m[k]`. -/
def GoMap.get (m : GoMap) (k : Nat) : Option Nat :=
  (m.entries.find? (fun e => e.1 = k)).map Prod.snd

/-- The statement `delete(m, k)`. -/
def GoMap.delete (m : GoMap) (k : Nat) : GoMap :=
  ⟨m.entries.filter (fun e => e.1 ≠ k)⟩

/-- The assignment `m[k] = v`. -/
def GoMap.set (m : GoMap) (k v : Nat) : GoMap :=
  ⟨(k, v) :: (m.delete k).entries⟩

/-- A map as Go keeps it and as the caches fill it: no key twice, and no
pointer under two keys. -/
def GoMap.WellFormed (m : GoMap) : Prop :=
  (m.entries.map Prod.fst).Nodup ∧ (m.entries.map Prod.snd).Nodup

/-- The fatal failures of `prepcache.go`, one constructor per `panic`. -/
inductive Panic where
  | readonlyCache (owner : Address)
  | brokenCache (k : Nat)
  | addressConvert
deriving DecidableEq

/-! ## `prepcache.go`: `PRepBaseCache` -/

/-- The type `CacheMode` (prepcache.go:33-38). -/
inductive CacheMode where
  | ModeRead
  | ModeWrite
  | ModeCreateIfNotExist
deriving DecidableEq

/-- The struct `PRepBaseCache` (prepcache.go:27-31); `store` is what the field
`dict` reaches. -/
structure PRepBaseCache (F : Type) where
  readonly : Bool
  bases : GoMap
  store : ObjectStore (PRepBase F)

/-- `NewPRepBaseCache` (prepcache.go:105-111). -/
def NewPRepBaseCache {F : Type} (store : ObjectStore (PRepBase F)) (readonly : Bool) :
    PRepBaseCache F :=
  ⟨readonly, ⟨[]⟩, store⟩

namespace PRepBaseCache

/-- Lines 59-69 of `Get` for a `base` that is not nil: clone a frozen record
when the mode is not `ModeRead`, put an uncached record into the map, return
it. -/
def keep {F : Type} (c : PRepBaseCache F) (key base : Nat) (cached : Bool)
    (mode : CacheMode) : Option Nat × PRepBaseCache F :=
  if (c.store.heap.obj base).IsReadonly = true ∧ mode ≠ .ModeRead then
    let a := c.store.heap.alloc (c.store.heap.obj base).Clone
    (some a.1, { c with bases := c.bases.set key a.1, store := { c.store with heap := a.2 } })
  else if cached = false then
    (some base, { c with bases := c.bases.set key base })
  else
    (some base, c)

/-- `PRepBaseCache.Get` (prepcache.go:40-70): the pointer returned (`none` is
nil) and the cache afterwards, or the panic. -/
def Get {F : Type} (M : RecordModel F) (c : PRepBaseCache F) (owner : Address)
    (mode : CacheMode) : Except Panic (Option Nat × PRepBaseCache F) :=
  if c.readonly = true ∧ mode ≠ .ModeRead then
    .error (.readonlyCache owner)
  else
    let key := ToKey owner
    match c.bases.get key with
    | some base => .ok (c.keep key base true mode)
    | none =>
      match c.store.dict.Get owner with
      | none =>
        if mode = .ModeCreateIfNotExist then
          let a := c.store.heap.alloc (NewPRepBase M)
          .ok (keep { c with store := { c.store with heap := a.2 } } key a.1 false mode)
        else
          .ok (none, c)
      | some o => .ok (c.keep key o false mode)

/-- The body of the loop of `Flush` (prepcache.go:82-101) for the entry
`(k, base)`. -/
def flushEntry {F : Type} (M : RecordModel F) (c : PRepBaseCache F) (e : Nat × Nat) :
    Except Panic (PRepBaseCache F) :=
  match BytesToAddress e.1 with
  | none => .error (.brokenCache e.1)
  | some key =>
    if (c.store.heap.obj e.2).IsReadonly = true then
      .ok c
    else if (c.store.heap.obj e.2).IsEmpty M = true then
      .ok { c with bases := c.bases.delete e.1,
                   store := { c.store with dict := c.store.dict.Delete key } }
    else
      .ok { c with store :=
              { heap := c.store.heap.write e.2 (c.store.heap.obj e.2).freeze,
                dict := c.store.dict.Set key e.2 } }

/-- The loop `for k, base := range c.bases` over the entries still to visit. -/
def flushLoop {F : Type} (M : RecordModel F) :
    List (Nat × Nat) → PRepBaseCache F → Except Panic (PRepBaseCache F)
  | [], c => .ok c
  | e :: rest, c =>
    match flushEntry M c e with
    | .error p => .error p
    | .ok c' => flushLoop M rest c'

/-- `PRepBaseCache.Flush` (prepcache.go:80-103). -/
def Flush {F : Type} (M : RecordModel F) (c : PRepBaseCache F) :
    Except Panic (PRepBaseCache F) :=
  flushLoop M c.bases.entries c

/-- A caller's write to the record behind the pointer `base` that `Get`
returned: the field values become `v`. -/
def setFields {F : Type} (c : PRepBaseCache F) (base : Nat) (v : F) : PRepBaseCache F :=
  { c with store :=
      { c.store with heap :=
          c.store.heap.write base { c.store.heap.obj base with fields := v } } }

/-- The states of a cache that its own operations reach: the map is well
formed, every pointer in the map has been allocated, and a record in the map
is in the dictionary under its own key at most. -/
def WellFormed {F : Type} (c : PRepBaseCache F) : Prop :=
  c.bases.WellFormed
  ∧ (∀ e ∈ c.bases.entries, e.2 < c.store.heap.next)
  ∧ (∀ e ∈ c.bases.entries, ∀ a, c.store.dict.Get a = some e.2 → ToKey a = e.1)

end PRepBaseCache

/-! ## `prepcache.go`: `PRepStatusCache` -/

/-- The struct `PRepStatusCache` (prepcache.go:113-116); `store` is what the
field `dict` reaches. -/
structure PRepStatusCache (S : Type) where
  statuses : GoMap
  store : ObjectStore (PRepStatus S)

namespace PRepStatusCache

/-- `PRepStatusCache.Get` (prepcache.go:118-139). -/
def Get {S : Type} (M : RecordModel S) (c : PRepStatusCache S) (owner : Address)
    (createIfNotExist : Bool) : Option Nat × PRepStatusCache S :=
  let key := ToKey owner
  match c.statuses.get key with
  | some status => (some status, c)
  | none =>
    match c.store.dict.Get owner with
    | none =>
      if createIfNotExist = true then
        let a := c.store.heap.alloc (NewPRepStatus M)
        (some a.1, { statuses := c.statuses.set key a.1,
                     store := { c.store with heap := a.2 } })
      else
        (none, c)
    | some o => (some o, { c with statuses := c.statuses.set key o })

/-- The body of the loop of `Flush` (prepcache.go:163-178) for the entry
`(k, status)`. -/
def flushEntry {S : Type} (M : RecordModel S) (c : PRepStatusCache S) (e : Nat × Nat) :
    Except Panic (PRepStatusCache S) :=
  match BytesToAddress e.1 with
  | none => .error (.brokenCache e.1)
  | some key =>
    if (c.store.heap.obj e.2).IsEmpty M = true then
      .ok { statuses := c.statuses.delete e.1,
            store := { c.store with dict := c.store.dict.Delete key } }
    else
      let a := c.store.heap.alloc (c.store.heap.obj e.2).Clone
      .ok { c with store := { heap := a.2, dict := c.store.dict.Set key a.1 } }

/-- The loop `for k, status := range c.statuses` of `Flush` over the entries
still to visit. -/
def flushLoop {S : Type} (M : RecordModel S) :
    List (Nat × Nat) → PRepStatusCache S → Except Panic (PRepStatusCache S)
  | [], c => .ok c
  | e :: rest, c =>
    match flushEntry M c e with
    | .error p => .error p
    | .ok c' => flushLoop M rest c'

/-- `PRepStatusCache.Flush` (prepcache.go:161-180). -/
def Flush {S : Type} (M : RecordModel S) (c : PRepStatusCache S) :
    Except Panic (PRepStatusCache S) :=
  flushLoop M c.statuses.entries c

/-- A caller's write to the status behind the pointer `status`. -/
def setFields {S : Type} (c : PRepStatusCache S) (status : Nat) (v : S) :
    PRepStatusCache S :=
  { c with store := { c.store with heap := c.store.heap.write status ⟨v⟩ } }

/-- The states of a status cache that its own operations reach: no pointer is
in the map under two keys, and a status in the map is in the dictionary under
its own key at most. -/
def WellFormed {S : Type} (c : PRepStatusCache S) : Prop :=
  (c.statuses.entries.map Prod.snd).Nodup
  ∧ (∀ e ∈ c.statuses.entries, ∀ a, c.store.dict.Get a = some e.2 → ToKey a = e.1)

end PRepStatusCache

/-! ## Example states -/

/-- A ledger in which account 1 holds 10, account 2 holds 3 and every other
account holds nothing; the total supply is 13. -/
def sampleWorld : WorldState :=
  ⟨fun a => if a = 1 then 10 else if a = 2 then 3 else 0, some 13⟩

/-- A ledger with no balance anywhere and the total supply never set. -/
def emptyWorld : WorldState := ⟨fun _ => 0, none⟩

/-- Sample codes for the package `errors`: success 0, execution failure 6,
critical from 1000 on; out of step has code 4 and out of balance code 5. -/
def sampleErrors : ErrorPkg := ⟨0, 6, fun c => decide (1000 ≤ c), ⟨4⟩, ⟨5⟩⟩

/-- A handler whose step charges answer `ok`, that has used `steps` steps and
whose call empties account 1 and then hands back `status`. -/
def sampleHandler (ok : Bool) (steps : Int) (status : Option Status) : ContractHandler :=
  ⟨fun _ _ => ok, steps, fun w => ⟨status, none, w.SetBalance 1 0⟩⟩

/-- A transaction of account 1 with an empty payload, run by `sampleHandler`. -/
def sampleTx (ok : Bool) (steps : Int) (status : Option Status) : transactionHandler :=
  ⟨⟨1⟩, sampleHandler ok steps status, .ok 0⟩

/-- A contract manager that has a handler for every type but `CTypePatch`. -/
def sampleManager : ContractManager :=
  ⟨fun _ _ _ _ ctype _ =>
    if ctype = .CTypePatch then none else some (sampleHandler true 0 none)⟩

/-- A sample record model: the field values are a number, 0 in a new record,
and a record is empty when the number is 0. -/
def sampleModel : RecordModel Nat := ⟨0, fun n => n == 0⟩

/-- A store with two objects, the frozen record 7 behind pointer 0 and the
frozen record 9 behind pointer 1, kept for account 1 and account 2. -/
def sampleStore : ObjectStore (PRepBase Nat) :=
  ⟨⟨2, fun r => if r = 0 then ⟨true, 7⟩ else ⟨true, 9⟩⟩,
    ⟨fun a => if a.bytes = 1 then some 0 else if a.bytes = 2 then some 1 else none⟩⟩

/-- A writable cache over the dictionary of `sampleStore` that holds the
frozen record 7 for account 1, an emptied record for account 2 and the new
record 5 for account 3. -/
def sampleCache : PRepBaseCache Nat :=
  ⟨false, ⟨[(1, 0), (2, 2), (3, 3)]⟩,
    ⟨⟨4, fun r => if r = 0 then ⟨true, 7⟩ else if r = 2 then ⟨false, 0⟩
        else if r = 3 then ⟨false, 5⟩ else ⟨true, 9⟩⟩,
      sampleStore.dict⟩⟩

/-- Sample constants: the system address is account 0, the burn event gets
its new signature at revision 5 and its second form at revision 10. -/
def sampleConstants : Constants := ⟨⟨0⟩, 10, 5⟩

/-- A call context at revision `rev` over `sampleWorld`, with no event yet. -/
def sampleCall (rev : Int) : callContextImpl := ⟨sampleWorld, [], rev, ⟨1⟩⟩

/-! ## Auxiliary facts -/

theorem Sign_neg_iff (x : Int) : Sign x < 0 ↔ x < 0 := by
  unfold Sign
  split_ifs with h1 h2
  · simp [h1]
  · simp [h2]
  · constructor <;> intro h <;> omega

theorem Sign_eq_zero_iff (x : Int) : Sign x = 0 ↔ x = 0 := by
  unfold Sign
  split_ifs with h1 h2
  · simp; omega
  · simp [h2]
  · simp; omega

theorem Sign_pos_iff (x : Int) : Sign x > 0 ↔ 0 < x := by
  unfold Sign
  split_ifs with h1 h2
  · simp; omega
  · simp [h2]
  · simp; omega

theorem validateAmount_some (v : Int) :
    validateAmount (some v) = if v < 0 then some (.invalidAmount (some v)) else none := by
  simp [validateAmount, Sign_neg_iff]

theorem Address.Equal_iff (a b : Address) : a.Equal b = true ↔ a = b := by
  simp [Address.Equal]

theorem Address.ne_of_ID_ne (a b : Address) (h : a.ID ≠ b.ID) : a ≠ b := by
  intro hab
  exact h (by rw [hab])

namespace worldContextImpl

theorem addBalance_ok (ctx : WorldState) (address : Address) (amount : Int)
    (h : 0 ≤ ctx.balances address.ID + amount) :
    addBalance ctx address amount
      = (ctx.SetBalance address.ID (ctx.balances address.ID + amount), none) := by
  have h' : ¬ ctx.balances address.ID + amount < 0 := by omega
  simp [addBalance, setBalance, Sign_neg_iff, h']

theorem addBalance_fail (ctx : WorldState) (address : Address) (amount : Int)
    (h : ctx.balances address.ID + amount < 0) :
    addBalance ctx address amount
      = (ctx, some (.invalidBalance address (ctx.balances address.ID + amount))) := by
  simp [addBalance, setBalance, Sign_neg_iff, h]

/-- What `Transfer` does once the amount is positive and the two addresses
differ: the debit decides, and the credit is read from the state that the
debit left, which matters when the two addresses name one account. -/
theorem Transfer_distinct (ctx : WorldState) (from_ to_ : Address) (amt : Int)
    (hne : from_ ≠ to_) (hpos : 0 < amt) (hto : 0 ≤ ctx.balances to_.ID) :
    Transfer ctx from_ to_ (some amt) =
      if ctx.balances from_.ID + -amt < 0 then
        (ctx, some (.invalidBalance from_ (ctx.balances from_.ID + -amt)))
      else
        ((ctx.SetBalance from_.ID (ctx.balances from_.ID + -amt)).SetBalance to_.ID
          ((ctx.SetBalance from_.ID (ctx.balances from_.ID + -amt)).balances to_.ID + amt),
          none) := by
  have hv : validateAmount (some amt) = none := by
    rw [validateAmount_some]; simp; omega
  have hs : ¬ Sign amt = 0 := by rw [Sign_eq_zero_iff]; omega
  have he : from_.Equal to_ = false := by
    simp [Address.Equal, hne]
  unfold Transfer
  simp only [hv, Option.getD_some, hs, he, decide_False, Bool.or_self, Bool.false_eq_true,
    if_false]
  split_ifs with hlt
  · rw [addBalance_fail ctx from_ (-amt) hlt]
  · rw [addBalance_ok ctx from_ (-amt) (by omega)]
    dsimp only
    have hb : 0 ≤ (ctx.SetBalance from_.ID (ctx.balances from_.ID + -amt)).balances to_.ID
        + amt := by
      simp only [WorldState.SetBalance]
      split_ifs <;> omega
    rw [addBalance_ok _ to_ amt hb]

end worldContextImpl

/-! ## The ledger: claims C1 to C5 -/

open worldContextImpl in
/-- C1, as amended. In a ledger whose balances are all non-negative, a
transfer of a positive amount between two addresses of different accounts
(`from.ID()` is not `to.ID()`), the payer holding at least the amount,
succeeds; the payer's balance goes down by the amount, the payee's goes up by
it, the balance of no other account and not the total supply changes, and the
sum of the two balances is what it was. -/
theorem Transfer_valid (ctx : WorldState) (from_ to_ : Address) (amt : Int)
    (hnn : ctx.NonNegative) (hne : from_.ID ≠ to_.ID) (hpos : 0 < amt)
    (hbal : amt ≤ GetBalance ctx from_) :
    (Transfer ctx from_ to_ (some amt)).2 = none
    ∧ GetBalance (Transfer ctx from_ to_ (some amt)).1 from_ = GetBalance ctx from_ - amt
    ∧ GetBalance (Transfer ctx from_ to_ (some amt)).1 to_ = GetBalance ctx to_ + amt
    ∧ (∀ a : Address, a.ID ≠ from_.ID → a.ID ≠ to_.ID →
        GetBalance (Transfer ctx from_ to_ (some amt)).1 a = GetBalance ctx a)
    ∧ (∀ acct : Nat, acct ≠ from_.ID → acct ≠ to_.ID →
        (Transfer ctx from_ to_ (some amt)).1.balances acct = ctx.balances acct)
    ∧ GetBalance (Transfer ctx from_ to_ (some amt)).1 from_
        + GetBalance (Transfer ctx from_ to_ (some amt)).1 to_
        = GetBalance ctx from_ + GetBalance ctx to_
    ∧ (Transfer ctx from_ to_ (some amt)).1.totalSupply = ctx.totalSupply := by
  have hft : ¬ from_.ID = to_.ID := hne
  have htf : ¬ to_.ID = from_.ID := fun h => hne h.symm
  unfold GetBalance at hbal ⊢
  rw [Transfer_distinct ctx from_ to_ amt (Address.ne_of_ID_ne from_ to_ hne) hpos (hnn _),
    if_neg (by omega)]
  refine ⟨rfl, ?_, ?_, ?_, ?_, ?_, rfl⟩
  · simp [WorldState.SetBalance, hft]; omega
  · simp [WorldState.SetBalance, htf]
  · intro a ha1 ha2
    simp [WorldState.SetBalance, ha1, ha2]
  · intro acct ha1 ha2
    simp [WorldState.SetBalance, ha1, ha2]
  · simp [WorldState.SetBalance, hft, htf]; omega

theorem sampleWorld_nonneg : sampleWorld.NonNegative := by
  intro a
  simp only [sampleWorld]
  split_ifs <;> omega

theorem emptyWorld_nonneg : emptyWorld.NonNegative := by
  intro a
  simp [emptyWorld]

open worldContextImpl in
/-- Witness of C1 as amended: 4 out of the 10 of account 1 go to account 2,
which held 3. -/
theorem Transfer_valid_witness :
    sampleWorld.NonNegative ∧ (⟨1⟩ : Address).ID ≠ (⟨2⟩ : Address).ID ∧ (0 : Int) < 4
    ∧ 4 ≤ GetBalance sampleWorld ⟨1⟩
    ∧ (Transfer sampleWorld ⟨1⟩ ⟨2⟩ (some 4)).2 = none
    ∧ GetBalance (Transfer sampleWorld ⟨1⟩ ⟨2⟩ (some 4)).1 ⟨1⟩ = 10 - 4
    ∧ GetBalance (Transfer sampleWorld ⟨1⟩ ⟨2⟩ (some 4)).1 ⟨2⟩ = 3 + 4 :=
  have h := Transfer_valid sampleWorld ⟨1⟩ ⟨2⟩ 4 sampleWorld_nonneg (by decide) (by decide)
    (by decide)
  ⟨sampleWorld_nonneg, by decide, by decide, by decide, h.1, h.2.1, h.2.2.1⟩

open worldContextImpl in
/-- Counterexample to C1 as stated: the addresses with bytes 1 and
`Address.idSpace + 1` are different addresses (`Equal` is false) of the one
account 1, which holds 10. A transfer of 4 between them succeeds, the debit
and the credit fall on the same account, and the balance of the payer is
still 10, not 10 less 4. -/
theorem Transfer_shared_account :
    sampleWorld.NonNegative
    ∧ (⟨1⟩ : Address) ≠ ⟨Address.idSpace + 1⟩
    ∧ Address.Equal ⟨1⟩ ⟨Address.idSpace + 1⟩ = false
    ∧ (⟨1⟩ : Address).ID = (⟨Address.idSpace + 1⟩ : Address).ID
    ∧ (0 : Int) < 4
    ∧ 4 ≤ GetBalance sampleWorld ⟨1⟩
    ∧ (Transfer sampleWorld ⟨1⟩ ⟨Address.idSpace + 1⟩ (some 4)).2 = none
    ∧ GetBalance (Transfer sampleWorld ⟨1⟩ ⟨Address.idSpace + 1⟩ (some 4)).1 ⟨1⟩ = 10
    ∧ GetBalance (Transfer sampleWorld ⟨1⟩ ⟨Address.idSpace + 1⟩ (some 4)).1 ⟨1⟩
        ≠ GetBalance sampleWorld ⟨1⟩ - 4 :=
  ⟨sampleWorld_nonneg, by decide, by decide, by decide, by decide, by decide, by decide,
    by decide, by decide⟩

/-- C2. A negative amount makes `Deposit`, `Withdraw`, `Transfer` and `Burn`
fail with the "Invalid amount" error, and the call context they return is the
one they were given: no balance, not the total supply and no event has
changed. -/
theorem negative_amount_rejected (K : Constants) (ctx : callContextImpl)
    (address from_ to_ : Address) (amount : Int) (hneg : amount < 0) :
    ctx.Deposit address (some amount) = (ctx, some (.invalidAmount (some amount)))
    ∧ ctx.Withdraw address (some amount) = (ctx, some (.invalidAmount (some amount)))
    ∧ ctx.Transfer from_ to_ (some amount) = (ctx, some (.invalidAmount (some amount)))
    ∧ ctx.Burn K address amount = (ctx, some (.invalidAmount (some amount))) := by
  have hv : validateAmount (some amount) = some (.invalidAmount (some amount)) := by
    rw [validateAmount_some, if_pos hneg]
  have hs : Sign amount < 0 := (Sign_neg_iff amount).2 hneg
  refine ⟨?_, ?_, ?_, ?_⟩
  · simp [callContextImpl.Deposit, callContextImpl.promoted, worldContextImpl.Deposit, hv]
  · simp [callContextImpl.Withdraw, callContextImpl.promoted, worldContextImpl.Withdraw, hv]
  · simp [callContextImpl.Transfer, callContextImpl.promoted, worldContextImpl.Transfer, hv]
  · simp [callContextImpl.Burn, hs]

/-- Witness of C2: the amount -1 on a context that already holds an event. -/
theorem negative_amount_rejected_witness :
    (-1 : Int) < 0
    ∧ (callContextImpl.Burn ⟨⟨0⟩, 10, 5⟩ ⟨sampleWorld, [⟨⟨0⟩, [], []⟩], 7, ⟨1⟩⟩ ⟨1⟩ (-1)).2
        = some (.invalidAmount (some (-1)))
    ∧ (callContextImpl.Deposit ⟨sampleWorld, [⟨⟨0⟩, [], []⟩], 7, ⟨1⟩⟩ ⟨1⟩ (some (-1))).2
        = some (.invalidAmount (some (-1))) :=
  have h := negative_amount_rejected ⟨⟨0⟩, 10, 5⟩ ⟨sampleWorld, [⟨⟨0⟩, [], []⟩], 7, ⟨1⟩⟩
    ⟨1⟩ ⟨1⟩ ⟨2⟩ (-1) (by decide)
  ⟨by decide, congrArg Prod.snd h.2.2.2, congrArg Prod.snd h.1⟩

open worldContextImpl in
/-- C3, as amended. In a ledger whose balances are all non-negative,
`Transfer` with a non-nil amount either succeeds with the net effect of debit
and credit (minus the amount at the account of `from`, plus the amount at the
account of `to`, also when the two addresses name one account) or fails and
returns the state it was given. When the addresses differ (`from.Equal(to)`
is false) and the payer holds less than the amount, the debit fails with
"Invalid balance" and nothing is written; a transfer to oneself succeeds
without writing, whatever the balance; and a credit that follows a successful
debit of a validated amount never fails. -/
theorem Transfer_atomic (ctx : WorldState) (from_ to_ : Address) (amt : Int)
    (hnn : ctx.NonNegative) :
    (((Transfer ctx from_ to_ (some amt)).2 = none
        ∧ (∀ a : Nat, (Transfer ctx from_ to_ (some amt)).1.balances a
            = ctx.balances a - (if a = from_.ID then amt else 0)
              + (if a = to_.ID then amt else 0))
        ∧ (Transfer ctx from_ to_ (some amt)).1.totalSupply = ctx.totalSupply)
      ∨ ((Transfer ctx from_ to_ (some amt)).2 ≠ none
        ∧ (Transfer ctx from_ to_ (some amt)).1 = ctx))
    ∧ (from_ ≠ to_ → GetBalance ctx from_ < amt →
        addBalance ctx from_ (-amt)
          = (ctx, some (.invalidBalance from_ (GetBalance ctx from_ + -amt)))
        ∧ Transfer ctx from_ to_ (some amt)
          = (ctx, some (.invalidBalance from_ (GetBalance ctx from_ + -amt))))
    ∧ (from_ = to_ → 0 ≤ amt → Transfer ctx from_ to_ (some amt) = (ctx, none))
    ∧ (0 ≤ amt → ∀ ctx1 : WorldState, addBalance ctx from_ (-amt) = (ctx1, none) →
        (addBalance ctx1 to_ amt).2 = none) := by
  have hself : from_ = to_ → 0 ≤ amt → Transfer ctx from_ to_ (some amt) = (ctx, none) := by
    intro he h0
    have hv : validateAmount (some amt) = none := by
      rw [validateAmount_some, if_neg (by omega)]
    simp [Transfer, hv, Address.Equal, he]
  refine ⟨?_, ?_, hself, ?_⟩
  · by_cases hneg : amt < 0
    · right
      have hv : validateAmount (some amt) = some (.invalidAmount (some amt)) := by
        rw [validateAmount_some, if_pos hneg]
      simp [Transfer, hv]
    · by_cases hz : amt = 0
      · left
        subst hz
        simp [Transfer, validateAmount, Sign]
      · by_cases he : from_ = to_
        · left
          rw [hself he (by omega)]
          refine ⟨rfl, ?_, rfl⟩
          intro a
          subst he
          dsimp only
          split_ifs <;> omega
        · rw [Transfer_distinct ctx from_ to_ amt he (by omega) (hnn _)]
          split_ifs with hlt
          · right
            simp
          · left
            refine ⟨rfl, ?_, rfl⟩
            intro a
            simp only [WorldState.SetBalance]
            split_ifs <;> first | omega | (subst_vars; omega) | simp_all
  · intro hne hlt
    unfold GetBalance at hlt ⊢
    have hpos : 0 < amt := by have := hnn from_.ID; omega
    rw [Transfer_distinct ctx from_ to_ amt hne hpos (hnn _), if_pos (by omega)]
    exact ⟨addBalance_fail ctx from_ (-amt) (by omega), rfl⟩
  · intro h0 ctx1 hdebit
    by_cases hlt : ctx.balances from_.ID + -amt < 0
    · rw [addBalance_fail ctx from_ (-amt) hlt] at hdebit
      simp at hdebit
    · rw [addBalance_ok ctx from_ (-amt) (by omega)] at hdebit
      have hctx1 : ctx1 = ctx.SetBalance from_.ID (ctx.balances from_.ID + -amt) := by
        simpa using hdebit.symm
      have hge : 0 ≤ ctx1.balances to_.ID + amt := by
        rw [hctx1]
        simp only [WorldState.SetBalance]
        split_ifs
        · omega
        · have := hnn to_.ID; omega
      rw [addBalance_ok ctx1 to_ amt hge]

open worldContextImpl in
/-- Witness of C3: account 2 holds 3 and tries to send 4 to account 1. -/
theorem Transfer_atomic_witness :
    sampleWorld.NonNegative
    ∧ Transfer sampleWorld ⟨2⟩ ⟨1⟩ (some 4)
        = (sampleWorld, some (.invalidBalance ⟨2⟩ (GetBalance sampleWorld ⟨2⟩ + -4))) :=
  ⟨sampleWorld_nonneg,
    ((Transfer_atomic sampleWorld ⟨2⟩ ⟨1⟩ 4 sampleWorld_nonneg).2.1 (by decide)
      (by decide)).2⟩

open worldContextImpl in
/-- Counterexample to C3 as stated: in the empty ledger account 1 holds 0,
which is less than 5, and yet `Transfer` from account 1 to itself of 5
succeeds: no debit is attempted, so none fails. -/
theorem Transfer_self_insufficient :
    emptyWorld.NonNegative
    ∧ GetBalance emptyWorld ⟨1⟩ < 5
    ∧ (Transfer emptyWorld ⟨1⟩ ⟨1⟩ (some 5)).2 = none
    ∧ (addBalance emptyWorld ⟨1⟩ (-5)).2 = some (.invalidBalance ⟨1⟩ (-5)) :=
  ⟨emptyWorld_nonneg, by decide, by decide, by decide⟩

open worldContextImpl in
/-- C4. For an amount that is not negative: when the balance of the account
is not negative (the data-model invariant), `Withdraw` fails exactly when the
balance minus the amount is negative; the failure is the "Invalid balance"
error and returns the state it was given; when the balance minus the amount
is not negative `Withdraw` succeeds, the balance of the account is the old
one minus the amount and the balance of no other account and not the total
supply changes; with the amount zero it succeeds and returns the state it was
given. -/
theorem Withdraw_spec (ctx : WorldState) (address : Address) (amt : Int)
    (h0 : 0 ≤ amt) :
    (0 ≤ GetBalance ctx address →
        ((Withdraw ctx address (some amt)).2 ≠ none ↔ GetBalance ctx address - amt < 0))
    ∧ (0 < amt → GetBalance ctx address - amt < 0 →
        Withdraw ctx address (some amt)
          = (ctx, some (.invalidBalance address (GetBalance ctx address - amt))))
    ∧ (0 ≤ GetBalance ctx address - amt →
        (Withdraw ctx address (some amt)).2 = none
        ∧ GetBalance (Withdraw ctx address (some amt)).1 address
            = GetBalance ctx address - amt
        ∧ (∀ a : Address, a.ID ≠ address.ID →
            GetBalance (Withdraw ctx address (some amt)).1 a = GetBalance ctx a)
        ∧ (∀ acct : Nat, acct ≠ address.ID →
            (Withdraw ctx address (some amt)).1.balances acct = ctx.balances acct)
        ∧ (Withdraw ctx address (some amt)).1.totalSupply = ctx.totalSupply)
    ∧ (amt = 0 → Withdraw ctx address (some amt) = (ctx, none)) := by
  unfold GetBalance
  have hv : validateAmount (some amt) = none := by
    rw [validateAmount_some, if_neg (by omega)]
  have hzero : amt = 0 → Withdraw ctx address (some amt) = (ctx, none) := by
    intro hz
    subst hz
    simp [Withdraw, validateAmount, Sign]
  have hfail : 0 < amt → ctx.balances address.ID - amt < 0 →
      Withdraw ctx address (some amt)
        = (ctx, some (.invalidBalance address (ctx.balances address.ID - amt))) := by
    intro hpos hlt
    have hs : ¬ Sign amt = 0 := by rw [Sign_eq_zero_iff]; omega
    simp only [Withdraw, hv, Option.getD_some, hs, if_false]
    rw [addBalance_fail ctx address (-amt) (by omega), Int.sub_eq_add_neg]
  have hok : 0 ≤ ctx.balances address.ID - amt →
      Withdraw ctx address (some amt)
        = (ctx.SetBalance address.ID (ctx.balances address.ID - amt), none)
        ∨ (amt = 0 ∧ Withdraw ctx address (some amt) = (ctx, none)) := by
    intro hge
    by_cases hz : amt = 0
    · exact Or.inr ⟨hz, hzero hz⟩
    · left
      have hs : ¬ Sign amt = 0 := by rw [Sign_eq_zero_iff]; exact hz
      simp only [Withdraw, hv, Option.getD_some, hs, if_false]
      rw [addBalance_ok ctx address (-amt) (by omega), Int.sub_eq_add_neg]
  refine ⟨?_, hfail, ?_, hzero⟩
  · intro hbal
    constructor
    · intro hne
      by_contra hge
      rcases hok (by omega) with h | ⟨_, h⟩ <;> rw [h] at hne <;> exact hne rfl
    · intro hlt
      rw [hfail (by omega) hlt]
      simp
  · intro hge
    rcases hok hge with h | ⟨hz, h⟩
    · rw [h]
      refine ⟨rfl, ?_, ?_, ?_, rfl⟩
      · simp [WorldState.SetBalance]
      · intro a ha
        simp [WorldState.SetBalance, ha]
      · intro acct ha
        simp [WorldState.SetBalance, ha]
    · rw [h]
      refine ⟨rfl, ?_, ?_, ?_, rfl⟩
      · dsimp only; omega
      · intro a _; rfl
      · intro acct _; rfl

open worldContextImpl in
/-- Witness of C4: account 2 holds 3; withdrawing 3 empties it, and asking
for 4 fails. -/
theorem Withdraw_spec_witness :
    (0 : Int) ≤ 3 ∧ 0 ≤ GetBalance sampleWorld ⟨2⟩
    ∧ (Withdraw sampleWorld ⟨2⟩ (some 3)).2 = none
    ∧ GetBalance (Withdraw sampleWorld ⟨2⟩ (some 3)).1 ⟨2⟩ = GetBalance sampleWorld ⟨2⟩ - 3
    ∧ Withdraw sampleWorld ⟨2⟩ (some 4)
        = (sampleWorld, some (.invalidBalance ⟨2⟩ (GetBalance sampleWorld ⟨2⟩ - 4))) :=
  have h := (Withdraw_spec sampleWorld ⟨2⟩ 3 (by decide)).2.2.1 (by decide)
  ⟨by decide, by decide, h.1, h.2.1,
    (Withdraw_spec sampleWorld ⟨2⟩ 4 (by decide)).2.1 (by decide) (by decide)⟩

open worldContextImpl in
/-- C5. With `ts` the stored total supply (0 while unset): when `ts + delta`
is negative `AddTotalSupply` fails with "TotalSupply < 0" and returns the
state it was given; otherwise it succeeds, returns `ts + delta`, and
`GetTotalSupply` then reads `ts + delta`, no balance having changed. Hence a
successful call leaves a total supply that is not negative, and any call
keeps a total supply that was not negative so. -/
theorem AddTotalSupply_spec (ctx : WorldState) (delta : Int) :
    (GetTotalSupply ctx + delta < 0 →
        AddTotalSupply ctx delta = (ctx, none, some .totalSupplyNegative))
    ∧ (0 ≤ GetTotalSupply ctx + delta →
        (AddTotalSupply ctx delta).2.2 = none
        ∧ (AddTotalSupply ctx delta).2.1 = some (GetTotalSupply ctx + delta)
        ∧ GetTotalSupply (AddTotalSupply ctx delta).1 = GetTotalSupply ctx + delta
        ∧ (AddTotalSupply ctx delta).1.balances = ctx.balances)
    ∧ ((AddTotalSupply ctx delta).2.2 = none →
        0 ≤ GetTotalSupply (AddTotalSupply ctx delta).1)
    ∧ (0 ≤ GetTotalSupply ctx → 0 ≤ GetTotalSupply (AddTotalSupply ctx delta).1) := by
  have hfail : GetTotalSupply ctx + delta < 0 →
      AddTotalSupply ctx delta = (ctx, none, some .totalSupplyNegative) := by
    intro hlt
    unfold GetTotalSupply at hlt
    simp [AddTotalSupply, Sign_neg_iff, hlt]
  have hok : 0 ≤ GetTotalSupply ctx + delta →
      AddTotalSupply ctx delta
        = ({ ctx with totalSupply := some (GetTotalSupply ctx + delta) },
            some (GetTotalSupply ctx + delta), none) := by
    intro hge
    unfold GetTotalSupply at hge ⊢
    have h' : ¬ (match ctx.totalSupply with | some v => v | none => 0) + delta < 0 := by
      omega
    simp [AddTotalSupply, Sign_neg_iff, h']
  refine ⟨hfail, ?_, ?_, ?_⟩
  · intro hge
    rw [hok hge]
    exact ⟨rfl, rfl, rfl, rfl⟩
  · intro hnone
    by_cases hlt : GetTotalSupply ctx + delta < 0
    · rw [hfail hlt] at hnone
      simp at hnone
    · rw [hok (by omega)]
      simp only [GetTotalSupply]
      unfold GetTotalSupply at hlt
      omega
  · intro hts
    by_cases hlt : GetTotalSupply ctx + delta < 0
    · rw [hfail hlt]
      exact hts
    · rw [hok (by omega)]
      simp only [GetTotalSupply]
      unfold GetTotalSupply at hlt
      omega

open worldContextImpl in
/-- Witness of C5: the supply 13 cannot lose 14, and stays 13. -/
theorem AddTotalSupply_spec_witness :
    GetTotalSupply sampleWorld + -14 < 0
    ∧ (AddTotalSupply sampleWorld (-14)).2.2 = some .totalSupplyNegative
    ∧ GetTotalSupply (AddTotalSupply sampleWorld (-14)).1 = 13
    ∧ (AddTotalSupply emptyWorld 5).2.1 = some (GetTotalSupply emptyWorld + 5) :=
  have h := (AddTotalSupply_spec sampleWorld (-14)).1 (by decide)
  ⟨by decide, congrArg (fun r => r.2.2) h, congrArg (fun r => GetTotalSupply r.1) h,
    ((AddTotalSupply_spec emptyWorld 5).2.1 (by decide)).2.1⟩

/-! ## Fee settlement: the four ways through the loop -/

theorem WorldState.SetBalance_same (ws : WorldState) (acct : Nat) :
    ws.SetBalance acct (ws.balances acct - 0) = ws := by
  cases ws with
  | mk balances totalSupply =>
    simp only [WorldState.SetBalance, Int.sub_zero]
    congr 1
    funext a
    split_ifs with h
    · rw [h]
    · rfl

theorem WorldState.SetBalance_nonneg (ws : WorldState) (acct : Nat) (v : Int)
    (hws : ws.NonNegative) (hv : 0 ≤ v) : (ws.SetBalance acct v).NonNegative := by
  intro a
  simp only [WorldState.SetBalance]
  split_ifs
  · exact hv
  · exact hws a

namespace transactionHandler

theorem feeLoop_done (E : ErrorPkg) (wcs : WorldState) (stepUsed : Int) (payer fuel : Nat)
    (s : FeeState) (h : ¬ s.bal < s.fee) :
    feeLoop E wcs stepUsed payer fuel s = some s := by
  cases fuel <;> simp [feeLoop, h]

/-- The balance covers the fee: the loop body never runs. -/
theorem settleFee_covered (fuel : Nat) (E : ErrorPkg) (th : transactionHandler)
    (wcs : WorldState) (stepPrice : Int) (status : Option Status) (world : WorldState)
    (h : ¬ world.balances th.from_.ID < th.chandler.StepUsed * stepPrice) :
    settleFee fuel E th wcs stepPrice status world
      = some ⟨status, stepPrice, th.chandler.StepUsed * stepPrice,
          world.balances th.from_.ID - th.chandler.StepUsed * stepPrice,
          world.SetBalance th.from_.ID
            (world.balances th.from_.ID - th.chandler.StepUsed * stepPrice), 0, 0⟩ := by
  unfold settleFee
  simp only []
  rw [feeLoop_done _ _ _ _ _ _ h]

/-- The balance does not cover the fee and a status is already recorded: one
run of the body forces price and fee to zero. -/
theorem settleFee_waived (fuel : Nat) (E : ErrorPkg) (th : transactionHandler)
    (wcs : WorldState) (stepPrice : Int) (st : Status) (world : WorldState)
    (hfuel : 1 ≤ fuel) (h0 : 0 ≤ world.balances th.from_.ID)
    (h : world.balances th.from_.ID < th.chandler.StepUsed * stepPrice) :
    settleFee fuel E th wcs stepPrice (some st) world
      = some ⟨some st, 0, 0, world.balances th.from_.ID - 0,
          world.SetBalance th.from_.ID (world.balances th.from_.ID - 0), 1, 0⟩ := by
  obtain ⟨n, rfl⟩ : ∃ n, fuel = n + 1 := ⟨fuel - 1, by omega⟩
  unfold settleFee
  simp only [feeLoop, h, if_true, feeStep]
  rw [feeLoop_done _ _ _ _ _ _ (by simpa using h0)]

/-- The balance does not cover the fee, no status is recorded, and the balance
of the snapshot covers the fee: one run of the body, one rollback. -/
theorem settleFee_rollback_paid (fuel : Nat) (E : ErrorPkg) (th : transactionHandler)
    (wcs : WorldState) (stepPrice : Int) (world : WorldState)
    (hfuel : 1 ≤ fuel)
    (h : world.balances th.from_.ID < th.chandler.StepUsed * stepPrice)
    (hs : ¬ wcs.balances th.from_.ID < th.chandler.StepUsed * stepPrice) :
    settleFee fuel E th wcs stepPrice none world
      = some ⟨some E.ErrOutOfBalance, stepPrice, th.chandler.StepUsed * stepPrice,
          wcs.balances th.from_.ID - th.chandler.StepUsed * stepPrice,
          wcs.SetBalance th.from_.ID
            (wcs.balances th.from_.ID - th.chandler.StepUsed * stepPrice), 1, 1⟩ := by
  obtain ⟨n, rfl⟩ : ∃ n, fuel = n + 1 := ⟨fuel - 1, by omega⟩
  unfold settleFee
  simp only [feeLoop, h, if_true, feeStep]
  rw [feeLoop_done _ _ _ _ _ _ (by simpa using hs)]

/-- The balance does not cover the fee, no status is recorded, and the balance
of the snapshot does not cover the fee either: two runs of the body, one
rollback, price and fee forced to zero. -/
theorem settleFee_rollback_waived (fuel : Nat) (E : ErrorPkg) (th : transactionHandler)
    (wcs : WorldState) (stepPrice : Int) (world : WorldState)
    (hfuel : 2 ≤ fuel) (h0 : 0 ≤ wcs.balances th.from_.ID)
    (h : world.balances th.from_.ID < th.chandler.StepUsed * stepPrice)
    (hs : wcs.balances th.from_.ID < th.chandler.StepUsed * stepPrice) :
    settleFee fuel E th wcs stepPrice none world
      = some ⟨some E.ErrOutOfBalance, 0, 0, wcs.balances th.from_.ID - 0,
          wcs.SetBalance th.from_.ID (wcs.balances th.from_.ID - 0), 2, 1⟩ := by
  obtain ⟨n, rfl⟩ : ∃ n, fuel = n + 2 := ⟨fuel - 2, by omega⟩
  unfold settleFee
  simp only [feeLoop, h, hs, if_true, feeStep]
  rw [feeLoop_done _ _ _ _ _ _ (by simpa using h0)]

/-- The debit of lines 164-165 never writes a negative balance: whenever
settlement ends, the balance it writes is the loop's `bal - fee` with
`bal ≥ fee`. -/
theorem feeLoop_exit (E : ErrorPkg) (wcs : WorldState) (stepUsed : Int) (payer : Nat) :
    ∀ (fuel : Nat) (s s' : FeeState),
      feeLoop E wcs stepUsed payer fuel s = some s' → ¬ s'.bal < s'.fee := by
  intro fuel
  induction fuel with
  | zero =>
    intro s s' h
    unfold feeLoop at h
    split_ifs at h with hc
    rw [← Option.some.inj h]; exact hc
  | succ n ih =>
    intro s s' h
    unfold feeLoop at h
    split_ifs at h with hc
    · exact ih _ _ h
    · rw [← Option.some.inj h]; exact hc

end transactionHandler

namespace transactionHandler

/-- Once a status is recorded and the fee is zero, a negative balance keeps
the loop running for ever: no amount of fuel ends it. -/
theorem feeLoop_stuck (E : ErrorPkg) (wcs : WorldState) (stepUsed : Int) (payer : Nat) :
    ∀ (fuel : Nat) (s : FeeState) (st : Status), s.status = some st → s.fee = 0 →
      s.bal < 0 → feeLoop E wcs stepUsed payer fuel s = none := by
  intro fuel
  induction fuel with
  | zero =>
    intro s st _ hfee hbal
    simp [feeLoop, hfee, hbal]
  | succ n ih =>
    intro s st hst hfee hbal
    have hc : s.bal < s.fee := by rw [hfee]; exact hbal
    simp only [feeLoop, hc, if_true]
    apply ih _ st
    · simp [feeStep, hst]
    · simp [feeStep, hst]
    · simpa [feeStep, hst] using hbal

/-- Every way in which settlement can end, for any fuel. -/
theorem settleFee_cases (fuel : Nat) (E : ErrorPkg) (th : transactionHandler)
    (wcs : WorldState) (stepPrice : Int) (status : Option Status) (world : WorldState)
    (s : FeeState) (h : settleFee fuel E th wcs stepPrice status world = some s) :
    (¬ world.balances th.from_.ID < th.chandler.StepUsed * stepPrice
      ∧ s = ⟨status, stepPrice, th.chandler.StepUsed * stepPrice,
          world.balances th.from_.ID - th.chandler.StepUsed * stepPrice,
          world.SetBalance th.from_.ID
            (world.balances th.from_.ID - th.chandler.StepUsed * stepPrice), 0, 0⟩)
    ∨ (world.balances th.from_.ID < th.chandler.StepUsed * stepPrice
      ∧ 0 ≤ world.balances th.from_.ID
      ∧ ∃ st, status = some st
        ∧ s = ⟨some st, 0, 0, world.balances th.from_.ID - 0,
            world.SetBalance th.from_.ID (world.balances th.from_.ID - 0), 1, 0⟩)
    ∨ (world.balances th.from_.ID < th.chandler.StepUsed * stepPrice
      ∧ status = none
      ∧ ¬ wcs.balances th.from_.ID < th.chandler.StepUsed * stepPrice
      ∧ s = ⟨some E.ErrOutOfBalance, stepPrice, th.chandler.StepUsed * stepPrice,
          wcs.balances th.from_.ID - th.chandler.StepUsed * stepPrice,
          wcs.SetBalance th.from_.ID
            (wcs.balances th.from_.ID - th.chandler.StepUsed * stepPrice), 1, 1⟩)
    ∨ (world.balances th.from_.ID < th.chandler.StepUsed * stepPrice
      ∧ status = none
      ∧ wcs.balances th.from_.ID < th.chandler.StepUsed * stepPrice
      ∧ 0 ≤ wcs.balances th.from_.ID
      ∧ s = ⟨some E.ErrOutOfBalance, 0, 0, wcs.balances th.from_.ID - 0,
          wcs.SetBalance th.from_.ID (wcs.balances th.from_.ID - 0), 2, 1⟩) := by
  by_cases hc : world.balances th.from_.ID < th.chandler.StepUsed * stepPrice
  · -- the loop body runs at least once, so there is fuel for it
    have hfuel : 1 ≤ fuel := by
      by_contra hf
      have hz : fuel = 0 := by omega
      subst hz
      simp [settleFee, feeLoop, hc] at h
    cases status with
    | some st =>
      right; left
      by_cases h0 : 0 ≤ world.balances th.from_.ID
      · rw [settleFee_waived fuel E th wcs stepPrice st world hfuel h0 hc] at h
        exact ⟨hc, h0, st, rfl, (Option.some.inj h).symm⟩
      · exfalso
        obtain ⟨n, rfl⟩ : ∃ n, fuel = n + 1 := ⟨fuel - 1, by omega⟩
        unfold settleFee at h
        simp only [feeLoop, hc, if_true] at h
        rw [feeLoop_stuck E wcs _ _ n _ st (by simp [feeStep]) (by simp [feeStep])
          (by simp only [feeStep]; omega)] at h
        simp at h
    | none =>
      right; right
      by_cases hs : wcs.balances th.from_.ID < th.chandler.StepUsed * stepPrice
      · right
        by_cases h0 : 0 ≤ wcs.balances th.from_.ID
        · have hfuel2 : 2 ≤ fuel := by
            by_contra hf
            have hz : fuel = 1 := by omega
            subst hz
            simp [settleFee, feeLoop, feeStep, hc, hs] at h
          rw [settleFee_rollback_waived fuel E th wcs stepPrice world hfuel2 h0 hc hs] at h
          exact ⟨hc, rfl, hs, h0, (Option.some.inj h).symm⟩
        · exfalso
          obtain ⟨n, rfl⟩ : ∃ n, fuel = n + 1 := ⟨fuel - 1, by omega⟩
          unfold settleFee at h
          simp only [feeLoop, hc, if_true] at h
          cases n with
          | zero => simp [feeLoop, feeStep, hs] at h
          | succ m =>
            simp only [feeLoop, feeStep, hs, if_true] at h
            rw [feeLoop_stuck E wcs _ _ m _ E.ErrOutOfBalance rfl rfl
              (by simp only []; omega)] at h
            simp at h
      · left
        rw [settleFee_rollback_paid fuel E th wcs stepPrice world hfuel hc hs] at h
        exact ⟨hc, rfl, hs, (Option.some.inj h).symm⟩
  · left
    rw [settleFee_covered fuel E th wcs stepPrice status world hc] at h
    exact ⟨hc, (Option.some.inj h).symm⟩

/-- With two runs of the loop body allowed and the payer's balance not
negative in the current state and in the snapshot, settlement ends. -/
theorem settleFee_terminates (fuel : Nat) (E : ErrorPkg) (th : transactionHandler)
    (wcs : WorldState) (stepPrice : Int) (status : Option Status) (world : WorldState)
    (hfuel : 2 ≤ fuel) (hw : 0 ≤ world.balances th.from_.ID)
    (hs : 0 ≤ wcs.balances th.from_.ID) :
    ∃ s, settleFee fuel E th wcs stepPrice status world = some s := by
  by_cases hc : world.balances th.from_.ID < th.chandler.StepUsed * stepPrice
  · cases status with
    | some st => exact ⟨_, settleFee_waived fuel E th wcs stepPrice st world (by omega) hw hc⟩
    | none =>
      by_cases hc' : wcs.balances th.from_.ID < th.chandler.StepUsed * stepPrice
      · exact ⟨_, settleFee_rollback_waived fuel E th wcs stepPrice world hfuel hs hc hc'⟩
      · exact ⟨_, settleFee_rollback_paid fuel E th wcs stepPrice world (by omega) hc hc'⟩
  · exact ⟨_, settleFee_covered fuel E th wcs stepPrice status world hc⟩

/-- A status that reaches settlement was recorded either without the world
state having changed or after the rollback of line 134: the world state is
the one at entry. -/
theorem invoke_settle_failed (E : ErrorPkg) (th : transactionHandler) (ctx : Context)
    (status : Option Status) (addr : Option Address) (world : WorldState)
    (h : invoke E th ctx = .settle status addr world) (hst : status ≠ none) :
    world = ctx.world := by
  unfold invoke at h
  split_ifs at h with h1
  · injection h with _ _ hw; exact hw.symm
  · split at h
    · exact Invoked.noConfusion h
    · split_ifs at h with h2
      · injection h with _ _ hw; exact hw.symm
      · simp only [] at h
        split_ifs at h with h3
        injection h with hs _ hw
        rw [← hw]
        cases hr : (th.chandler.Call ctx.world).status with
        | none => rw [hr] at hs; exact absurd hs.symm hst
        | some st => rfl

end transactionHandler

/-! ## Invariant and `Execute`: claims C6 to C10 -/

namespace worldContextImpl

theorem addBalance_nonneg (ctx : WorldState) (address : Address) (amount : Int)
    (hnn : ctx.NonNegative) : (addBalance ctx address amount).1.NonNegative := by
  by_cases h : ctx.balances address.ID + amount < 0
  · rw [addBalance_fail ctx address amount h]; exact hnn
  · rw [addBalance_ok ctx address amount (by omega)]
    exact WorldState.SetBalance_nonneg ctx _ _ hnn (by omega)

theorem Transfer_nonneg (ctx : WorldState) (from_ to_ : Address) (amount : Option Int)
    (hnn : ctx.NonNegative) : (Transfer ctx from_ to_ amount).1.NonNegative := by
  unfold Transfer
  split
  · exact hnn
  · dsimp only
    split_ifs
    · exact hnn
    · have h1 := addBalance_nonneg ctx from_ (-(amount.getD 0)) hnn
      split
      · next ctx1 err heq => rw [heq] at h1; exact h1
      · next ctx1 heq =>
        rw [heq] at h1
        have h2 := addBalance_nonneg ctx1 to_ (amount.getD 0) h1
        split
        · next ctx2 err heq2 => rw [heq2] at h2; exact h2
        · next ctx2 heq2 => rw [heq2] at h2; exact h2

end worldContextImpl

namespace transactionHandler

theorem settleFee_nonneg (fuel : Nat) (E : ErrorPkg) (th : transactionHandler)
    (wcs : WorldState) (stepPrice : Int) (status : Option Status) (world : WorldState)
    (s : FeeState) (h : settleFee fuel E th wcs stepPrice status world = some s)
    (hw : world.NonNegative) (hs : wcs.NonNegative) : s.world.NonNegative := by
  rcases settleFee_cases fuel E th wcs stepPrice status world s h with
    ⟨hc, rfl⟩ | ⟨_, h0, _, _, rfl⟩ | ⟨_, _, hc, rfl⟩ | ⟨_, _, _, h0, rfl⟩
  · exact WorldState.SetBalance_nonneg _ _ _ hw (by omega)
  · exact WorldState.SetBalance_nonneg _ _ _ hw (by omega)
  · exact WorldState.SetBalance_nonneg _ _ _ hs (by omega)
  · exact WorldState.SetBalance_nonneg _ _ _ hs (by omega)

/-- The world state with which lines 114-143 end is the one at entry or the
one the call left. -/
theorem invoke_world (E : ErrorPkg) (th : transactionHandler) (ctx : Context) :
    (∀ err world, invoke E th ctx = .abort err world →
        world = ctx.world ∨ world = (th.chandler.Call ctx.world).world)
    ∧ (∀ status addr world, invoke E th ctx = .settle status addr world →
        world = ctx.world ∨ world = (th.chandler.Call ctx.world).world) := by
  have hm : (match (th.chandler.Call ctx.world).status with
      | some _ => ctx.world
      | none => (th.chandler.Call ctx.world).world) = ctx.world
      ∨ (match (th.chandler.Call ctx.world).status with
      | some _ => ctx.world
      | none => (th.chandler.Call ctx.world).world) = (th.chandler.Call ctx.world).world := by
    cases (th.chandler.Call ctx.world).status
    · exact Or.inr rfl
    · exact Or.inl rfl
  constructor
  · intro err world h
    unfold invoke at h
    split_ifs at h with h1
    split at h
    · injection h with _ hw; exact Or.inl hw.symm
    · split_ifs at h with h2
      simp only [] at h
      split_ifs at h with h3
      injection h with _ hw
      rw [← hw]; exact hm
  · intro status addr world h
    unfold invoke at h
    split_ifs at h with h1
    · injection h with _ _ hw; exact Or.inl hw.symm
    · split at h
      · exact Invoked.noConfusion h
      · split_ifs at h with h2
        · injection h with _ _ hw; exact Or.inl hw.symm
        · simp only [] at h
          split_ifs at h with h3
          injection h with _ _ hw
          rw [← hw]; exact hm

/-- With two runs of the loop body allowed and the payer's balance not
negative at entry, `Execute` returns. -/
theorem Execute_terminates (fuel : Nat) (E : ErrorPkg) (th : transactionHandler)
    (ctx : Context) (hfuel : 2 ≤ fuel) (h0 : 0 ≤ ctx.world.balances th.from_.ID) :
    ∃ r, Execute fuel E th ctx = some r := by
  unfold Execute
  cases hinv : invoke E th ctx with
  | abort err world => exact ⟨_, rfl⟩
  | settle status addr world =>
    have hset : ∃ s, settleFee fuel E th ctx.world ctx.stepPrice status world = some s := by
      cases status with
      | some st =>
        have hw := invoke_settle_failed E th ctx _ _ _ hinv (by simp)
        subst hw
        exact settleFee_terminates fuel E th _ _ _ _ hfuel h0 h0
      | none =>
        by_cases hc : world.balances th.from_.ID < th.chandler.StepUsed * ctx.stepPrice
        · by_cases hc' : ctx.world.balances th.from_.ID < th.chandler.StepUsed * ctx.stepPrice
          · exact ⟨_, settleFee_rollback_waived fuel E th _ _ world hfuel h0 hc hc'⟩
          · exact ⟨_, settleFee_rollback_paid fuel E th _ _ world (by omega) hc hc'⟩
        · exact ⟨_, settleFee_covered fuel E th _ _ none world hc⟩
    obtain ⟨s, hs⟩ := hset
    simp only [hs]
    exact ⟨_, rfl⟩

end transactionHandler

open worldContextImpl transactionHandler in
/-- C6. Balance non-negativity is an invariant. From a state `ws` in which
every balance is non-negative: the state left by `Deposit`, by `Withdraw` and
by `Transfer`, whatever the amount (nil and negative included) and whether
they succeed or fail, has every balance non-negative; fee settlement started
in `ws` with a snapshot `wcs` whose balances are non-negative too ends (two
runs of the loop body are enough) and the state after its unchecked debit has
every balance non-negative; and so has the state `Execute` leaves, when the
call of the handler keeps the invariant. -/
theorem balances_stay_nonnegative (ws wcs : WorldState) (address from_ to_ : Address)
    (amount : Option Int) (fuel : Nat) (E : ErrorPkg) (th : transactionHandler)
    (stepPrice : Int) (status : Option Status)
    (hnn : ws.NonNegative) (hwcs : wcs.NonNegative) (hfuel : 2 ≤ fuel) :
    (Deposit ws address amount).1.NonNegative
    ∧ (Withdraw ws address amount).1.NonNegative
    ∧ (Transfer ws from_ to_ amount).1.NonNegative
    ∧ (∃ s, settleFee fuel E th wcs stepPrice status ws = some s ∧ s.world.NonNegative)
    ∧ ((th.chandler.Call ws).world.NonNegative →
        ∃ r, Execute fuel E th ⟨ws, stepPrice⟩ = some r ∧ r.world.NonNegative) := by
  refine ⟨?_, ?_, Transfer_nonneg ws from_ to_ amount hnn, ?_, ?_⟩
  · unfold Deposit
    split
    · exact hnn
    · dsimp only
      split_ifs
      · exact hnn
      · exact addBalance_nonneg _ _ _ hnn
  · unfold Withdraw
    split
    · exact hnn
    · dsimp only
      split_ifs
      · exact hnn
      · exact addBalance_nonneg _ _ _ hnn
  · obtain ⟨s, hs⟩ := settleFee_terminates fuel E th wcs stepPrice status ws hfuel
      (hnn _) (hwcs _)
    exact ⟨s, hs, settleFee_nonneg fuel E th wcs stepPrice status ws s hs hnn hwcs⟩
  · intro hcall
    obtain ⟨r, hr⟩ := Execute_terminates fuel E th ⟨ws, stepPrice⟩ hfuel (hnn _)
    refine ⟨r, hr, ?_⟩
    unfold Execute at hr
    cases hinv : invoke E th ⟨ws, stepPrice⟩ with
    | abort err world =>
      rw [hinv] at hr
      rw [← Option.some.inj hr]
      rcases (invoke_world E th ⟨ws, stepPrice⟩).1 err world hinv with h | h <;> rw [h]
      · exact hnn
      · exact hcall
    | settle st addr world =>
      rw [hinv] at hr
      have hworld : world.NonNegative := by
        rcases (invoke_world E th ⟨ws, stepPrice⟩).2 st addr world hinv with h | h <;> rw [h]
        · exact hnn
        · exact hcall
      cases hset : settleFee fuel E th ws stepPrice st world with
      | none => simp [hset] at hr
      | some s =>
        simp only [hset] at hr
        rw [← Option.some.inj hr]
        exact settleFee_nonneg fuel E th ws stepPrice st world s hset hworld hnn

open worldContextImpl transactionHandler in
/-- Witness of C6: account 2 holds 3 and is asked for 4, and a settlement of
2 steps at price 3 on account 1, which holds 10. -/
theorem balances_stay_nonnegative_witness :
    sampleWorld.NonNegative ∧ 2 ≤ 2
    ∧ (Withdraw sampleWorld ⟨2⟩ (some 4)).1.NonNegative
    ∧ (∃ s, settleFee 2 sampleErrors (sampleTx true 2 none) sampleWorld 3 none sampleWorld
          = some s ∧ s.world.NonNegative) :=
  have h := balances_stay_nonnegative sampleWorld sampleWorld ⟨2⟩ ⟨2⟩ ⟨1⟩ (some 4) 2
    sampleErrors (sampleTx true 2 none) 3 none sampleWorld_nonneg sampleWorld_nonneg
    (Nat.le_refl 2)
  ⟨sampleWorld_nonneg, Nat.le_refl 2, h.2.1, h.2.2.2.1⟩

open transactionHandler in
/-- C7. Whenever `Execute` returns a receipt with a failure status (out of
step, out of balance or a failure of the handler that is neither an execution
failure nor critical), the world state it leaves is the one captured at entry
but for the payer's balance, which is the one at entry minus the steps used
times the step price of the receipt; no error is returned with the receipt.
Such a run exists: `Execute` returns as soon as two runs of the settlement
loop are allowed and the payer's balance at entry is not negative. -/
theorem Execute_failure_restores (fuel : Nat) (E : ErrorPkg) (th : transactionHandler)
    (ctx : Context) :
    (∀ r rc, Execute fuel E th ctx = some r → r.receipt = some rc → rc.status ≠ none →
        r.world = ctx.world.SetBalance th.from_.ID
            (ctx.world.balances th.from_.ID - rc.stepUsed * rc.stepPrice)
        ∧ rc.stepUsed = th.chandler.StepUsed
        ∧ r.err = none)
    ∧ (2 ≤ fuel → 0 ≤ ctx.world.balances th.from_.ID →
        ∃ r, Execute fuel E th ctx = some r) := by
  refine ⟨?_, Execute_terminates fuel E th ctx⟩
  intro r rc hr hrc hfail
  unfold Execute at hr
  cases hinv : invoke E th ctx with
  | abort err world =>
    rw [hinv] at hr
    rw [← Option.some.inj hr] at hrc
    simp at hrc
  | settle status addr world =>
    rw [hinv] at hr
    cases hset : settleFee fuel E th ctx.world ctx.stepPrice status world with
    | none => simp [hset] at hr
    | some s =>
      simp only [hset] at hr
      have hr' := Option.some.inj hr
      subst hr'
      simp only [Option.some.injEq] at hrc
      subst hrc
      dsimp only at hfail ⊢
      rcases settleFee_cases fuel E th ctx.world ctx.stepPrice status world s hset with
        ⟨_, rfl⟩ | ⟨_, _, st, hst, rfl⟩ | ⟨_, _, _, rfl⟩ | ⟨_, _, _, _, rfl⟩
      · have hw := invoke_settle_failed E th ctx _ _ _ hinv hfail
        subst hw
        exact ⟨rfl, rfl, rfl⟩
      · have hw := invoke_settle_failed E th ctx _ _ _ hinv (by simp [hst])
        subst hw
        simp
      · exact ⟨rfl, rfl, rfl⟩
      · simp

open transactionHandler in
/-- Witness of C7: the handler empties account 1 and fails with code 32;
2 steps at price 3 are charged on the 10 that account 1 held at entry. -/
theorem Execute_failure_restores_witness :
    ∃ r rc, Execute 2 sampleErrors (sampleTx true 2 (some ⟨32⟩)) ⟨sampleWorld, 3⟩ = some r
      ∧ r.receipt = some rc ∧ rc.status = some ⟨32⟩ ∧ rc.stepPrice = 3
      ∧ r.world = sampleWorld.SetBalance 1 (sampleWorld.balances 1 - rc.stepUsed * rc.stepPrice)
      ∧ r.world.balances 1 = 4 :=
  ⟨_, _, rfl, rfl, rfl, rfl,
    ((Execute_failure_restores 2 sampleErrors (sampleTx true 2 (some ⟨32⟩))
      ⟨sampleWorld, 3⟩).1 _ _ rfl rfl (by decide)).1, by decide⟩

open transactionHandler in
/-- C8. Fee waiver. When the base step charge or the input step charge fails,
the payer's balance is not negative and is less than the steps used times the
step price, `Execute` (one run of the settlement loop allowed) returns a
receipt with status out of step and step price 0 and no error, after one run
of the loop body and no rollback; the world state, the payer's balance
included, is the one at entry. -/
theorem fee_waiver_out_of_step (fuel : Nat) (E : ErrorPkg) (th : transactionHandler)
    (ctx : Context) (hfuel : 1 ≤ fuel)
    (hstep : th.chandler.ApplySteps .StepTypeDefault 1 = false
      ∨ ∃ cnt, th.dataBytes = .ok cnt ∧ th.chandler.ApplySteps .StepTypeInput cnt = false)
    (h0 : 0 ≤ ctx.world.balances th.from_.ID)
    (hlt : ctx.world.balances th.from_.ID < th.chandler.StepUsed * ctx.stepPrice) :
    Execute fuel E th ctx
      = some ⟨some ⟨some E.ErrOutOfStep, th.chandler.StepUsed, 0, none⟩, none, ctx.world,
          1, 0⟩ := by
  have hinv : invoke E th ctx = .settle (some E.ErrOutOfStep) none ctx.world := by
    unfold invoke
    by_cases h1 : th.chandler.ApplySteps .StepTypeDefault 1 = false
    · simp [h1]
    · rcases hstep with h | ⟨cnt, hd, hi⟩
      · exact absurd h h1
      · simp [h1, hd, hi]
  unfold Execute
  rw [hinv]
  simp only [settleFee_waived fuel E th ctx.world ctx.stepPrice E.ErrOutOfStep ctx.world
    hfuel h0 hlt, WorldState.SetBalance_same]

open transactionHandler in
/-- Witness of C8: the step charges fail, 20 steps at price 3 are asked of
account 1, which holds 10. -/
theorem fee_waiver_out_of_step_witness :
    (Execute 1 sampleErrors (sampleTx false 20 none) ⟨sampleWorld, 3⟩).map
        (fun r => r.receipt.map (fun rc => (rc.status, rc.stepPrice)))
      = some (some (some sampleErrors.ErrOutOfStep, 0))
    ∧ (Execute 1 sampleErrors (sampleTx false 20 none) ⟨sampleWorld, 3⟩).map
        (fun r => r.world.balances 1) = some 10 :=
  have h := fee_waiver_out_of_step 1 sampleErrors (sampleTx false 20 none) ⟨sampleWorld, 3⟩
    (Nat.le_refl 1) (Or.inl rfl) (by decide) (by decide)
  ⟨by rw [h]; rfl, by rw [h]; rfl⟩

open transactionHandler in
/-- C9. When lines 114-143 of `Execute` fall through to fee settlement with
status `status` and the payer's balance `bal` is at least the fee, the steps
used times the step price, then `Execute` returns, whatever the fuel: the
receipt records `status`, the steps used and the unmodified step price, no
error is returned, the loop body never ran and no rollback was made, and the
world state is the one settlement started from but for the payer's balance,
which is `bal` minus the fee. -/
theorem fee_covered_debits_once (fuel : Nat) (E : ErrorPkg) (th : transactionHandler)
    (ctx : Context) (status : Option Status) (addr : Option Address) (world : WorldState)
    (hreach : invoke E th ctx = .settle status addr world)
    (hcov : th.chandler.StepUsed * ctx.stepPrice ≤ world.balances th.from_.ID) :
    Execute fuel E th ctx
      = some ⟨some ⟨status, th.chandler.StepUsed, ctx.stepPrice, addr⟩, none,
          world.SetBalance th.from_.ID
            (world.balances th.from_.ID - th.chandler.StepUsed * ctx.stepPrice), 0, 0⟩ := by
  unfold Execute
  rw [hreach]
  simp only [settleFee_covered fuel E th ctx.world ctx.stepPrice status world (by omega)]

open transactionHandler in
/-- Witness of C9: the call succeeds, 1 step at price 3 is charged on the 3
of account 2, with no fuel at all for the loop. -/
theorem fee_covered_debits_once_witness :
    (Execute 0 sampleErrors ⟨⟨2⟩, sampleHandler true 1 none, .ok 0⟩ ⟨sampleWorld, 3⟩).map
        (fun r => (r.receipt.map (fun rc => (rc.status, rc.stepUsed, rc.stepPrice)),
          r.world.balances 2, r.world.balances 1, r.rollbacks))
      = some (some (none, 1, 3), 0, 0, 0) :=
  have h := fee_covered_debits_once 0 sampleErrors ⟨⟨2⟩, sampleHandler true 1 none, .ok 0⟩
    ⟨sampleWorld, 3⟩ none none (sampleWorld.SetBalance 1 0) rfl (by decide)
  by rw [h]; rfl

open transactionHandler in
/-- C10. When both step charges pass and the handler returns a status whose
code is the execution-failure code or a critical code, `Execute` returns that
status as its error and no receipt, whatever the fuel; the world state is the
one captured at entry, so no fee has been debited, and the settlement loop
never ran. -/
theorem fatal_status_aborts (fuel : Nat) (E : ErrorPkg) (th : transactionHandler)
    (ctx : Context) (cnt : Int) (st : Status)
    (h1 : th.chandler.ApplySteps .StepTypeDefault 1 = true)
    (h2 : th.dataBytes = .ok cnt)
    (h3 : th.chandler.ApplySteps .StepTypeInput cnt = true)
    (h4 : (th.chandler.Call ctx.world).status = some st)
    (h5 : st.code = E.ExecutionFailError ∨ E.IsCriticalCode st.code = true) :
    Execute fuel E th ctx = some ⟨none, some st, ctx.world, 0, 0⟩ := by
  have hinv : invoke E th ctx = .abort (some st) ctx.world := by
    unfold invoke
    simp only [h1, h2, h3, h4, CodeOf, Bool.not_true, Bool.false_eq_true, if_false]
    rcases h5 with h | h <;> simp [h]
  unfold Execute
  rw [hinv]

open transactionHandler in
/-- Witness of C10: the handler empties account 1 and returns the critical
code 1000; account 1 still holds its 10 afterwards. -/
theorem fatal_status_aborts_witness :
    (Execute 0 sampleErrors (sampleTx true 2 (some ⟨1000⟩)) ⟨sampleWorld, 3⟩).map
        (fun r => (r.receipt.isNone, r.err, r.world.balances 1))
      = some (true, some ⟨1000⟩, 10) :=
  have h := fatal_status_aborts 0 sampleErrors (sampleTx true 2 (some ⟨1000⟩))
    ⟨sampleWorld, 3⟩ 0 ⟨1000⟩ rfl rfl rfl rfl (Or.inr rfl)
  by rw [h]; rfl

/-! ## Construction, burn and settlement: claims C11, C16, C17, C19, C20 -/

/-- C11. The contract type is a total function of the tag, of whether the
destination is a contract and of the value: no tag or the tag `message` gives
transfer-and-call for a contract and transfer otherwise; `deploy` gives
deploy; `patch` gives patch; `call` gives transfer-and-call when the value is
not nil and positive and call otherwise; any other tag fails with
`InvalidFormat`, whatever the contract manager (it is not asked); and when the
contract manager has no handler for the type, construction fails with
`NoSuitableHandler`, a handler found being the one the result carries. -/
theorem NewTransactionHandler_classifies (IsContract : Address → Bool) (cm : ContractManager)
    (from_ to_ : Address) (value stepLimit : Option Int) (dataType : Option String)
    (data : List Nat) :
    ((dataType = none ∨ dataType = some "message") →
        classify (IsContract to_) value dataType
          = .ok (if IsContract to_ then .CTypeTransferAndCall else .CTypeTransfer))
    ∧ (dataType = some "deploy" → classify (IsContract to_) value dataType = .ok .CTypeDeploy)
    ∧ (dataType = some "patch" → classify (IsContract to_) value dataType = .ok .CTypePatch)
    ∧ (dataType = some "call" →
        classify (IsContract to_) value dataType
          = .ok (match value with
            | some v => if 0 < v then .CTypeTransferAndCall else .CTypeCall
            | none => .CTypeCall))
    ∧ (∀ dt, dataType = some dt → dt ≠ "message" → dt ≠ "call" → dt ≠ "deploy" →
        dt ≠ "patch" →
        classify (IsContract to_) value dataType = .error (.InvalidFormat dt)
        ∧ NewTransactionHandler IsContract cm from_ to_ value stepLimit dataType data
          = .error (.InvalidFormat dt))
    ∧ (∀ ctype, classify (IsContract to_) value dataType = .ok ctype →
        (cm.GetHandler from_ to_ value stepLimit ctype data = none →
          NewTransactionHandler IsContract cm from_ to_ value stepLimit dataType data
            = .error .NoSuitableHandler)
        ∧ (∀ h, cm.GetHandler from_ to_ value stepLimit ctype data = some h →
          NewTransactionHandler IsContract cm from_ to_ value stepLimit dataType data
            = .ok ⟨from_, to_, value, stepLimit, dataType, data, h⟩)) := by
  refine ⟨?_, ?_, ?_, ?_, ?_, ?_⟩
  · rintro (h | h) <;> subst h <;> cases IsContract to_ <;>
      simp [classify, DataTypeMessage]
  · intro h; subst h
    simp [classify, DataTypeMessage, DataTypeDeploy]
  · intro h; subst h
    simp [classify, DataTypeMessage, DataTypeDeploy, DataTypeCall, DataTypePatch]
  · intro h; subst h
    cases value with
    | none => simp [classify, DataTypeMessage, DataTypeDeploy, DataTypeCall]
    | some v =>
      have hs : Sign v = 1 ↔ 0 < v := by
        unfold Sign
        split_ifs <;> simp <;> omega
      by_cases hv : 0 < v
      · simp [classify, DataTypeMessage, DataTypeDeploy, DataTypeCall, hs, hv]
      · simp [classify, DataTypeMessage, DataTypeDeploy, DataTypeCall, hs, hv]
  · intro dt h h1 h2 h3 h4
    subst h
    have hc : classify (IsContract to_) value (some dt) = .error (.InvalidFormat dt) := by
      simp [classify, DataTypeMessage, DataTypeDeploy, DataTypeCall, DataTypePatch,
        h1, h2, h3, h4]
    exact ⟨hc, by simp [NewTransactionHandler, hc]⟩
  · intro ctype hc
    constructor
    · intro hn
      simp [NewTransactionHandler, hc, hn]
    · intro h hs
      simp [NewTransactionHandler, hc, hs]

/-- Witness of C11: a call with value 1 to account 2 is a transfer-and-call,
the tag `transfer` is refused and no handler is found for a patch. -/
theorem NewTransactionHandler_classifies_witness :
    classify false (some 1) (some "call") = .ok .CTypeTransferAndCall
    ∧ classify false (some 0) (some "call") = .ok .CTypeCall
    ∧ (NewTransactionHandler (fun _ => false) sampleManager ⟨1⟩ ⟨2⟩ (some 1) none
        (some "transfer") []).toOption.isNone = true
    ∧ NewTransactionHandler (fun _ => false) sampleManager ⟨1⟩ ⟨2⟩ none none (some "patch") []
        = .error .NoSuitableHandler :=
  have h := NewTransactionHandler_classifies (fun _ => false) sampleManager ⟨1⟩ ⟨2⟩ (some 1)
    none (some "call") []
  have h0 := NewTransactionHandler_classifies (fun _ => false) sampleManager ⟨1⟩ ⟨2⟩ (some 0)
    none (some "call") []
  have ht := NewTransactionHandler_classifies (fun _ => false) sampleManager ⟨1⟩ ⟨2⟩ (some 1)
    none (some "transfer") []
  have hp := NewTransactionHandler_classifies (fun _ => false) sampleManager ⟨1⟩ ⟨2⟩ none
    none (some "patch") []
  ⟨by rw [h.2.2.2.1 rfl]; rfl,
    by rw [h0.2.2.2.1 rfl]; rfl,
    by rw [(ht.2.2.2.2.1 "transfer" rfl (by decide) (by decide) (by decide) (by decide)).2]; rfl,
    (hp.2.2.2.2.2 .CTypePatch (hp.2.2.1 rfl)).1 rfl⟩

open callContextImpl in
/-- C16. `OnBurn` appends exactly one event, from the system address, and
changes nothing else. Below both thresholds the event is `ICXBurned` with the
amount; from `RevisionFixBurnEventSignature` on and below `RevisionBurnV2` it
is `ICXBurned(int)` with the amount; from `RevisionBurnV2` on it is
`ICXBurnedV2(Address,int,int)` with the address, the amount and the total
supply. When the first threshold lies at least two revisions below the second
(the constants themselves are declared outside the sources at hand), the form
at threshold - 1 is the old one and the form at threshold and at threshold + 1
is the new one, for either threshold. -/
theorem OnBurn_encoding (K : Constants) (w : WorldState) (evs : List Event)
    (f address : Address) (amount ts : Int) :
    (∀ rev, ∃ e, OnBurn K ⟨w, evs, rev, f⟩ address amount ts = ⟨w, evs ++ [e], rev, f⟩
        ∧ e.addr = K.SystemAddress)
    ∧ (∀ rev, rev < K.RevisionFixBurnEventSignature → rev < K.RevisionBurnV2 →
        OnBurn K ⟨w, evs, rev, f⟩ address amount ts
          = ⟨w, evs ++ [⟨K.SystemAddress, [.text "ICXBurned"], [.int amount]⟩], rev, f⟩)
    ∧ (∀ rev, K.RevisionFixBurnEventSignature ≤ rev → rev < K.RevisionBurnV2 →
        OnBurn K ⟨w, evs, rev, f⟩ address amount ts
          = ⟨w, evs ++ [⟨K.SystemAddress, [.text "ICXBurned(int)"], [.int amount]⟩], rev, f⟩)
    ∧ (∀ rev, K.RevisionBurnV2 ≤ rev →
        OnBurn K ⟨w, evs, rev, f⟩ address amount ts
          = ⟨w, evs ++ [⟨K.SystemAddress,
              [.text "ICXBurnedV2(Address,int,int)", .address address],
              [.int amount, .int ts]⟩], rev, f⟩)
    ∧ (K.RevisionFixBurnEventSignature + 1 < K.RevisionBurnV2 →
        (OnBurn K ⟨w, evs, K.RevisionFixBurnEventSignature - 1, f⟩ address amount ts).events
          = evs ++ [⟨K.SystemAddress, [.text "ICXBurned"], [.int amount]⟩]
        ∧ (∀ rev, rev = K.RevisionFixBurnEventSignature
              ∨ rev = K.RevisionFixBurnEventSignature + 1
              ∨ rev = K.RevisionBurnV2 - 1 →
            (OnBurn K ⟨w, evs, rev, f⟩ address amount ts).events
              = evs ++ [⟨K.SystemAddress, [.text "ICXBurned(int)"], [.int amount]⟩])
        ∧ (∀ rev, rev = K.RevisionBurnV2 ∨ rev = K.RevisionBurnV2 + 1 →
            (OnBurn K ⟨w, evs, rev, f⟩ address amount ts).events
              = evs ++ [⟨K.SystemAddress,
                  [.text "ICXBurnedV2(Address,int,int)", .address address],
                  [.int amount, .int ts]⟩])) := by
  have h1 : ∀ rev, rev < K.RevisionFixBurnEventSignature → rev < K.RevisionBurnV2 →
      OnBurn K ⟨w, evs, rev, f⟩ address amount ts
        = ⟨w, evs ++ [⟨K.SystemAddress, [.text "ICXBurned"], [.int amount]⟩], rev, f⟩ := by
    intro rev hf hb
    simp [OnBurn, OnEvent, hf, hb]
  have h2 : ∀ rev, K.RevisionFixBurnEventSignature ≤ rev → rev < K.RevisionBurnV2 →
      OnBurn K ⟨w, evs, rev, f⟩ address amount ts
        = ⟨w, evs ++ [⟨K.SystemAddress, [.text "ICXBurned(int)"], [.int amount]⟩],
            rev, f⟩ := by
    intro rev hf hb
    have hf' : ¬ rev < K.RevisionFixBurnEventSignature := by omega
    simp [OnBurn, OnEvent, hf', hb]
  have h3 : ∀ rev, K.RevisionBurnV2 ≤ rev →
      OnBurn K ⟨w, evs, rev, f⟩ address amount ts
        = ⟨w, evs ++ [⟨K.SystemAddress,
            [.text "ICXBurnedV2(Address,int,int)", .address address],
            [.int amount, .int ts]⟩], rev, f⟩ := by
    intro rev hb
    have hb' : ¬ rev < K.RevisionBurnV2 := by omega
    simp [OnBurn, OnEvent, hb']
  refine ⟨?_, h1, h2, h3, ?_⟩
  · intro rev
    by_cases hb : rev < K.RevisionBurnV2
    · by_cases hf : rev < K.RevisionFixBurnEventSignature
      · exact ⟨_, h1 rev hf hb, rfl⟩
      · exact ⟨_, h2 rev (by omega) hb, rfl⟩
    · exact ⟨_, h3 rev (by omega), rfl⟩
  · intro hgap
    refine ⟨?_, ?_, ?_⟩
    · rw [h1 _ (by omega) (by omega)]
    · intro rev hrev
      rw [h2 rev (by omega) (by omega)]
    · intro rev hrev
      rw [h3 rev (by omega)]

open callContextImpl in
/-- Witness of C16: with thresholds 5 and 10, revision 4 emits `ICXBurned`,
revisions 5, 6 and 9 emit `ICXBurned(int)` and revision 10 the second form. -/
theorem OnBurn_encoding_witness :
    (OnBurn sampleConstants (sampleCall 4) ⟨7⟩ 3 10).events
      = [⟨⟨0⟩, [.text "ICXBurned"], [.int 3]⟩]
    ∧ (OnBurn sampleConstants (sampleCall 5) ⟨7⟩ 3 10).events
      = [⟨⟨0⟩, [.text "ICXBurned(int)"], [.int 3]⟩]
    ∧ (OnBurn sampleConstants (sampleCall 9) ⟨7⟩ 3 10).events
      = [⟨⟨0⟩, [.text "ICXBurned(int)"], [.int 3]⟩]
    ∧ (OnBurn sampleConstants (sampleCall 10) ⟨7⟩ 3 10).events
      = [⟨⟨0⟩, [.text "ICXBurnedV2(Address,int,int)", .address ⟨7⟩], [.int 3, .int 10]⟩] :=
  have h := (OnBurn_encoding sampleConstants sampleWorld [] ⟨1⟩ ⟨7⟩ 3 10).2.2.2.2
    (by decide)
  ⟨h.1, h.2.1 5 (Or.inl rfl), h.2.1 9 (Or.inr (Or.inr rfl)), h.2.2 10 (Or.inl rfl)⟩

open worldContextImpl callContextImpl in
/-- C17. With a stored total supply `ts` that is not negative: `Burn` of 0
succeeds and returns the context it was given (same supply, no event);
`Burn` of an amount between 1 and `ts` succeeds, what it returns is what
`OnBurn` makes, called with the supply `ts - amt`, of the context whose supply
has become `ts - amt`, so that the supply read afterwards is `ts - amt` and
exactly one event has been added; `Burn` of more than `ts` fails with
"TotalSupply < 0" and returns the context it was given. `Burn` never changes
a balance, whatever the amount. -/
theorem Burn_spec (K : Constants) (ctx : callContextImpl) (address : Address) (amt : Int)
    (hts : 0 ≤ GetTotalSupply ctx.world) :
    (amt = 0 → Burn K ctx address amt = (ctx, none))
    ∧ (0 < amt → amt ≤ GetTotalSupply ctx.world →
        Burn K ctx address amt
          = (OnBurn K
              { ctx with world :=
                  { ctx.world with totalSupply := some (GetTotalSupply ctx.world - amt) } }
              address amt (GetTotalSupply ctx.world - amt), none)
        ∧ GetTotalSupply (Burn K ctx address amt).1.world = GetTotalSupply ctx.world - amt
        ∧ ∃ e, (Burn K ctx address amt).1.events = ctx.events ++ [e])
    ∧ (GetTotalSupply ctx.world < amt →
        Burn K ctx address amt = (ctx, some .totalSupplyNegative))
    ∧ (Burn K ctx address amt).1.world.balances = ctx.world.balances := by
  have hzero : amt = 0 → Burn K ctx address amt = (ctx, none) := by
    intro hz
    subst hz
    simp [Burn, Sign]
  have hok : 0 < amt → amt ≤ GetTotalSupply ctx.world →
      Burn K ctx address amt
        = (OnBurn K
            { ctx with world :=
                { ctx.world with totalSupply := some (GetTotalSupply ctx.world - amt) } }
            address amt (GetTotalSupply ctx.world - amt), none) := by
    intro hpos hle
    have h1 : ¬ Sign amt < 0 := by rw [Sign_neg_iff]; omega
    have h2 : Sign amt > 0 := (Sign_pos_iff amt).2 hpos
    have h3 : ¬ Sign (GetTotalSupply ctx.world + -amt) < 0 := by rw [Sign_neg_iff]; omega
    unfold GetTotalSupply at h3 ⊢
    simp only [Burn, h1, h2, if_true, if_false, AddTotalSupply, h3, Option.getD_some,
      Int.sub_eq_add_neg]
  have hfail : GetTotalSupply ctx.world < amt →
      Burn K ctx address amt = (ctx, some .totalSupplyNegative) := by
    intro hlt
    have h1 : ¬ Sign amt < 0 := by rw [Sign_neg_iff]; omega
    have h2 : Sign amt > 0 := (Sign_pos_iff amt).2 (by omega)
    have h3 : Sign (GetTotalSupply ctx.world + -amt) < 0 := by rw [Sign_neg_iff]; omega
    unfold GetTotalSupply at h3
    simp only [Burn, h1, h2, if_true, if_false, AddTotalSupply, h3]
  have hev : ∀ (c : callContextImpl) (t : Int),
      (OnBurn K c address amt t).world = c.world
      ∧ ∃ e, (OnBurn K c address amt t).events = c.events ++ [e] := by
    intro c t
    unfold OnBurn
    dsimp only
    split_ifs <;> exact ⟨rfl, _, rfl⟩
  refine ⟨hzero, ?_, hfail, ?_⟩
  · intro hpos hle
    refine ⟨hok hpos hle, ?_, ?_⟩
    · rw [hok hpos hle]
      dsimp only
      rw [(hev _ _).1]
      rfl
    · rw [hok hpos hle]
      exact (hev _ _).2
  · by_cases hneg : amt < 0
    · have h1 : Sign amt < 0 := (Sign_neg_iff amt).2 hneg
      simp [Burn, h1]
    · by_cases hz : amt = 0
      · rw [hzero hz]
      · by_cases hle : amt ≤ GetTotalSupply ctx.world
        · rw [hok (by omega) hle]
          dsimp only
          rw [(hev _ _).1]
        · rw [hfail (by omega)]

open worldContextImpl callContextImpl in
/-- Witness of C17: burning 3 of the supply 13 at revision 10 leaves 10 and
one event that carries 10; burning 14 fails. -/
theorem Burn_spec_witness :
    0 ≤ GetTotalSupply (sampleCall 10).world
    ∧ GetTotalSupply (Burn sampleConstants (sampleCall 10) ⟨7⟩ 3).1.world = 13 - 3
    ∧ (Burn sampleConstants (sampleCall 10) ⟨7⟩ 3).1.events
        = [⟨⟨0⟩, [.text "ICXBurnedV2(Address,int,int)", .address ⟨7⟩], [.int 3, .int 10]⟩]
    ∧ Burn sampleConstants (sampleCall 10) ⟨7⟩ 14
        = (sampleCall 10, some .totalSupplyNegative) :=
  have h := Burn_spec sampleConstants (sampleCall 10) ⟨7⟩ 3 (by decide)
  have h' := Burn_spec sampleConstants (sampleCall 10) ⟨7⟩ 14 (by decide)
  ⟨by decide, (h.2.1 (by decide) (by decide)).2.1, by decide, h'.2.2.1 (by decide)⟩

namespace transactionHandler

/-- Settlement ends exactly when its loop does, and then writes the loop's
`bal - fee`. -/
theorem settleFee_eq_some (fuel : Nat) (E : ErrorPkg) (th : transactionHandler)
    (wcs : WorldState) (stepPrice : Int) (status : Option Status) (world : WorldState)
    (s' : FeeState) (h : settleFee fuel E th wcs stepPrice status world = some s') :
    ∃ s, feeLoop E wcs th.chandler.StepUsed th.from_.ID fuel
        ⟨status, stepPrice, th.chandler.StepUsed * stepPrice, world.balances th.from_.ID,
          world, 0, 0⟩ = some s
      ∧ s' = { s with bal := s.bal - s.fee,
                      world := s.world.SetBalance th.from_.ID (s.bal - s.fee) } := by
  unfold settleFee at h
  dsimp only at h
  split at h
  · exact absurd h (by simp)
  · next s hs => exact ⟨s, hs, (Option.some.inj h).symm⟩

end transactionHandler

open transactionHandler in
/-- C19. When lines 114-143 of `Execute` fall through to fee settlement with
no status recorded and the payer's balance after the call is less than the
steps used times the step price, the status becomes out of balance and the
world state is reset to the one at entry, where the payer holds `bal0`. If
`bal0` covers the fee, `Execute` (one run of the loop allowed) leaves the
entry state with the payer at `bal0` minus the fee, and the receipt carries
the unmodified step price. If it does not and `bal0` is not negative (the
data-model invariant), `Execute` (two runs allowed) leaves the entry state,
the payer at `bal0`, and the receipt carries the step price 0; with `bal0`
negative the loop would never end. The receipt's status is out of balance in
both cases, after exactly one rollback. -/
theorem out_of_balance_path (fuel : Nat) (E : ErrorPkg) (th : transactionHandler)
    (ctx : Context) (addr : Option Address) (world : WorldState)
    (hreach : invoke E th ctx = .settle none addr world)
    (hlt : world.balances th.from_.ID < th.chandler.StepUsed * ctx.stepPrice) :
    (th.chandler.StepUsed * ctx.stepPrice ≤ ctx.world.balances th.from_.ID → 1 ≤ fuel →
        Execute fuel E th ctx
          = some ⟨some ⟨some E.ErrOutOfBalance, th.chandler.StepUsed, ctx.stepPrice, addr⟩,
              none,
              ctx.world.SetBalance th.from_.ID
                (ctx.world.balances th.from_.ID - th.chandler.StepUsed * ctx.stepPrice),
              1, 1⟩)
    ∧ (ctx.world.balances th.from_.ID < th.chandler.StepUsed * ctx.stepPrice →
        0 ≤ ctx.world.balances th.from_.ID → 2 ≤ fuel →
        Execute fuel E th ctx
          = some ⟨some ⟨some E.ErrOutOfBalance, th.chandler.StepUsed, 0, addr⟩, none,
              ctx.world, 2, 1⟩)
    ∧ (ctx.world.balances th.from_.ID < th.chandler.StepUsed * ctx.stepPrice →
        ctx.world.balances th.from_.ID < 0 → Execute fuel E th ctx = none) := by
  refine ⟨?_, ?_, ?_⟩
  · intro hcov hfuel
    unfold Execute
    rw [hreach]
    simp only [settleFee_rollback_paid fuel E th ctx.world ctx.stepPrice world hfuel hlt
      (by omega)]
  · intro hs h0 hfuel
    unfold Execute
    rw [hreach]
    simp only [settleFee_rollback_waived fuel E th ctx.world ctx.stepPrice world hfuel h0
      hlt hs, WorldState.SetBalance_same]
  · intro hs hneg
    unfold Execute
    rw [hreach]
    cases hset : settleFee fuel E th ctx.world ctx.stepPrice none world with
    | none => simp only [hset]
    | some s =>
      exfalso
      rcases settleFee_cases fuel E th ctx.world ctx.stepPrice none world s hset with
        ⟨h, _⟩ | ⟨_, _, st, hst, _⟩ | ⟨_, _, h, _⟩ | ⟨_, _, _, h, _⟩
      · exact h hlt
      · exact absurd hst (by simp)
      · exact h hs
      · omega

open transactionHandler in
/-- Witness of C19: the call empties account 1, so that 2 steps at price 3
are not covered; the 10 held at entry cover them. With 4 steps at price 3 they
do not, and nothing is charged. -/
theorem out_of_balance_path_witness :
    (Execute 1 sampleErrors (sampleTx true 2 none) ⟨sampleWorld, 3⟩).map
        (fun r => (r.receipt.map (fun rc => (rc.status, rc.stepPrice)), r.world.balances 1))
      = some (some (some sampleErrors.ErrOutOfBalance, 3), 4)
    ∧ (Execute 2 sampleErrors (sampleTx true 4 none) ⟨sampleWorld, 3⟩).map
        (fun r => (r.receipt.map (fun rc => (rc.status, rc.stepPrice)), r.world.balances 1))
      = some (some (some sampleErrors.ErrOutOfBalance, 0), 10) :=
  have h := (out_of_balance_path 1 sampleErrors (sampleTx true 2 none) ⟨sampleWorld, 3⟩
    none (sampleWorld.SetBalance 1 0) rfl (by decide)).1 (by decide) (Nat.le_refl 1)
  have h' := (out_of_balance_path 2 sampleErrors (sampleTx true 4 none) ⟨sampleWorld, 3⟩
    none (sampleWorld.SetBalance 1 0) rfl (by decide)).2.1 (by decide) (by decide)
    (Nat.le_refl 2)
  ⟨by rw [h]; rfl, by rw [h']; rfl⟩

open transactionHandler in
/-- C20. The settlement loop ends. When the payer's balance is not negative
in the current state and in the snapshot, then for every status, steps used
and step price the loop `for bal < fee`, allowed two runs of its body or more,
exits; its body has run at most twice, and at most once when a status was
recorded on entry; the rollback branch has run at most once; and on exit the
balance covers the fee. -/
theorem settlement_loop_bounded (fuel : Nat) (E : ErrorPkg) (th : transactionHandler)
    (wcs : WorldState) (stepPrice : Int) (status : Option Status) (world : WorldState)
    (hw : 0 ≤ world.balances th.from_.ID) (hs : 0 ≤ wcs.balances th.from_.ID)
    (hfuel : 2 ≤ fuel) :
    ∃ s, feeLoop E wcs th.chandler.StepUsed th.from_.ID fuel
        ⟨status, stepPrice, th.chandler.StepUsed * stepPrice, world.balances th.from_.ID,
          world, 0, 0⟩ = some s
      ∧ s.iterations ≤ 2
      ∧ (status ≠ none → s.iterations ≤ 1)
      ∧ s.rollbacks ≤ 1
      ∧ s.fee ≤ s.bal := by
  obtain ⟨s', hs'⟩ := settleFee_terminates fuel E th wcs stepPrice status world hfuel hw hs
  obtain ⟨s, hloop, hrel⟩ := settleFee_eq_some fuel E th wcs stepPrice status world s' hs'
  have hexit := feeLoop_exit E wcs _ _ fuel _ s hloop
  have hit : s'.iterations = s.iterations := by rw [hrel]
  have hrb : s'.rollbacks = s.rollbacks := by rw [hrel]
  refine ⟨s, hloop, ?_, ?_, ?_, by omega⟩
  · rw [← hit]
    rcases settleFee_cases fuel E th wcs stepPrice status world s' hs' with
      ⟨_, h⟩ | ⟨_, _, _, _, h⟩ | ⟨_, _, _, h⟩ | ⟨_, _, _, _, h⟩ <;> rw [h] <;> simp
  · intro hst
    rw [← hit]
    rcases settleFee_cases fuel E th wcs stepPrice status world s' hs' with
      ⟨_, h⟩ | ⟨_, _, _, _, h⟩ | ⟨_, hn, _, h⟩ | ⟨_, hn, _, _, h⟩
    · rw [h]; simp
    · rw [h]
    · exact absurd hn hst
    · exact absurd hn hst
  · rw [← hrb]
    rcases settleFee_cases fuel E th wcs stepPrice status world s' hs' with
      ⟨_, h⟩ | ⟨_, _, _, _, h⟩ | ⟨_, _, _, h⟩ | ⟨_, _, _, _, h⟩ <;> rw [h] <;> simp

open transactionHandler in
/-- Witness of C20: no status, 4 steps at price 3, account 1 emptied by the
call and holding 10 in the snapshot: two runs of the body, one rollback. -/
theorem settlement_loop_bounded_witness :
    ∃ s, feeLoop sampleErrors sampleWorld 4 1 2
        ⟨none, 3, 4 * 3, (sampleWorld.SetBalance 1 0).balances 1, sampleWorld.SetBalance 1 0,
          0, 0⟩ = some s
      ∧ s.iterations ≤ 2 ∧ s.rollbacks ≤ 1 ∧ s.fee ≤ s.bal :=
  have h := settlement_loop_bounded 2 sampleErrors (sampleTx true 4 none) sampleWorld 3 none
    (sampleWorld.SetBalance 1 0) (by decide) (by decide) (Nat.le_refl 2)
  h.elim fun s hs => ⟨s, hs.1, hs.2.1, hs.2.2.2.1, hs.2.2.2.2⟩

/-! ## Go maps -/

theorem GoMap.get_eq_some (m : GoMap) (k v : Nat) (h : m.get k = some v) :
    (k, v) ∈ m.entries := by
  unfold GoMap.get at h
  cases hf : m.entries.find? (fun e => decide (e.1 = k)) with
  | none => rw [hf] at h; simp at h
  | some e =>
    rw [hf] at h
    simp only [Option.map_some', Option.some.injEq] at h
    have hm := List.mem_of_find?_eq_some hf
    have hp := List.find?_some hf
    simp only [decide_eq_true_eq] at hp
    have : e = (k, v) := by
      cases e
      simp only [Prod.mk.injEq]
      exact ⟨hp, h⟩
    rw [← this]; exact hm

theorem GoMap.get_eq_none (m : GoMap) (k : Nat) (h : m.get k = none) :
    ∀ e ∈ m.entries, e.1 ≠ k := by
  unfold GoMap.get at h
  simp only [Option.map_eq_none', List.find?_eq_none, decide_eq_true_eq] at h
  exact h

theorem GoMap.get_set_self (m : GoMap) (k v : Nat) : (m.set k v).get k = some v := by
  simp [GoMap.get, GoMap.set]

theorem GoMap.get_of_mem (m : GoMap) (k v : Nat) (hk : (m.entries.map Prod.fst).Nodup)
    (h : (k, v) ∈ m.entries) : m.get k = some v := by
  cases m with
  | mk l =>
    simp only [GoMap.get] at *
    induction l with
    | nil => simp at h
    | cons e t ih =>
      simp only [List.map_cons, List.nodup_cons] at hk
      rcases List.mem_cons.1 h with h | h
      · subst h
        simp
      · have hne : ¬ e.1 = k := by
          intro he
          apply hk.1
          rw [he]
          exact List.mem_map.2 ⟨(k, v), h, rfl⟩
        simp only [List.find?_cons, hne, decide_False]
        exact ih hk.2 h

theorem GoMap.mem_delete (m : GoMap) (k : Nat) (e : Nat × Nat) :
    e ∈ (m.delete k).entries ↔ e ∈ m.entries ∧ e.1 ≠ k := by
  simp [GoMap.delete]

theorem GoMap.mem_set (m : GoMap) (k v : Nat) (e : Nat × Nat) :
    e ∈ (m.set k v).entries ↔ e = (k, v) ∨ (e ∈ m.entries ∧ e.1 ≠ k) := by
  simp [GoMap.set, GoMap.delete]

theorem GoMap.delete_wellFormed (m : GoMap) (k : Nat) (h : m.WellFormed) :
    (m.delete k).WellFormed := by
  have hs : (m.delete k).entries.Sublist m.entries := List.filter_sublist _
  exact ⟨h.1.sublist (hs.map _), h.2.sublist (hs.map _)⟩

theorem GoMap.set_wellFormed (m : GoMap) (k v : Nat) (h : m.WellFormed)
    (hv : ∀ e ∈ m.entries, e.1 ≠ k → e.2 ≠ v) : (m.set k v).WellFormed := by
  have hd := GoMap.delete_wellFormed m k h
  constructor
  · simp only [GoMap.set, List.map_cons, List.nodup_cons]
    refine ⟨?_, hd.1⟩
    intro hmem
    obtain ⟨e, he, hek⟩ := List.mem_map.1 hmem
    exact ((GoMap.mem_delete m k e).1 he).2 hek
  · simp only [GoMap.set, List.map_cons, List.nodup_cons]
    refine ⟨?_, hd.2⟩
    intro hmem
    obtain ⟨e, he, hev⟩ := List.mem_map.1 hmem
    have := (GoMap.mem_delete m k e).1 he
    exact hv e this.1 this.2 hev

theorem Address.eta (a : Address) : (⟨ToKey a⟩ : Address) = a := by
  cases a; rfl

/-! ## The base cache: claims C13 and C14 -/

open PRepBaseCache in
/-- C14. A cache built by `NewPRepBaseCache` carries the flag it was given,
and `Get` never changes the flag. `Get` on a cache whose flag is true, with a
mode other than `ModeRead`, panics, whatever the map and the store hold: the
result is the panic alone, no cache comes back changed. `Get` in mode
`ModeRead` on such a cache, and `Get` in any mode on a cache whose flag is
false, return without a panic. -/
theorem Get_readonly_panics {F : Type} (M : RecordModel F) (c : PRepBaseCache F)
    (store : ObjectStore (PRepBase F)) (owner : Address) (mode : CacheMode) :
    (NewPRepBaseCache store true).readonly = true
    ∧ (NewPRepBaseCache store false).readonly = false
    ∧ (c.readonly = true → mode ≠ .ModeRead →
        Get M c owner mode = .error (.readonlyCache owner))
    ∧ (c.readonly = true → ∃ r, Get M c owner .ModeRead = .ok r)
    ∧ (c.readonly = false → ∃ r, Get M c owner mode = .ok r)
    ∧ (∀ r, Get M c owner mode = .ok r → r.2.readonly = c.readonly) := by
  have hok : ∀ md : CacheMode, ¬ (c.readonly = true ∧ md ≠ .ModeRead) →
      ∃ r, Get M c owner md = .ok r ∧ r.2.readonly = c.readonly := by
    intro md hn
    unfold Get
    rw [if_neg hn]
    dsimp only
    split
    · refine ⟨_, rfl, ?_⟩
      unfold keep
      split_ifs <;> rfl
    · split
      · split_ifs
        · refine ⟨_, rfl, ?_⟩
          unfold keep
          dsimp only
          split_ifs <;> rfl
        · exact ⟨_, rfl, rfl⟩
      · refine ⟨_, rfl, ?_⟩
        unfold keep
        split_ifs <;> rfl
  refine ⟨rfl, rfl, ?_, ?_, ?_, ?_⟩
  · intro hro hmode
    unfold Get
    rw [if_pos ⟨hro, hmode⟩]
  · intro _
    obtain ⟨r, hr, _⟩ := hok .ModeRead (by simp)
    exact ⟨r, hr⟩
  · intro hro
    obtain ⟨r, hr, _⟩ := hok mode (by simp [hro])
    exact ⟨r, hr⟩
  · intro r hr
    by_cases hn : c.readonly = true ∧ mode ≠ .ModeRead
    · unfold Get at hr
      rw [if_pos hn] at hr
      exact absurd hr (by simp)
    · obtain ⟨r', hr', hro⟩ := hok mode hn
      rw [hr] at hr'
      cases hr'
      exact hro

open PRepBaseCache in
/-- Witness of C14: a read-only cache over `sampleStore` panics in mode
`ModeWrite` and serves account 1 in mode `ModeRead`. -/
theorem Get_readonly_panics_witness :
    Get sampleModel (NewPRepBaseCache sampleStore true) ⟨1⟩ .ModeWrite
        = .error (.readonlyCache ⟨1⟩)
    ∧ (∃ r, Get sampleModel (NewPRepBaseCache sampleStore true) ⟨1⟩ .ModeRead = .ok r) :=
  have h := Get_readonly_panics sampleModel (NewPRepBaseCache sampleStore true) sampleStore
    ⟨1⟩ .ModeWrite
  ⟨h.2.2.1 rfl (by decide), h.2.2.2.1 rfl⟩

namespace PRepBaseCache

/-- `Get` in a writing mode on a writable cache that resolves the owner to a
frozen record `o`, cached or loaded: a clone is allocated, cached and
returned. -/
theorem Get_frozen {F : Type} (M : RecordModel F) (c : PRepBaseCache F) (owner : Address)
    (mode : CacheMode) (o : Nat) (hw : c.readonly = false) (hmode : mode ≠ .ModeRead)
    (hfrozen : (c.store.heap.obj o).readonly = true)
    (hres : c.bases.get (ToKey owner) = some o
      ∨ (c.bases.get (ToKey owner) = none ∧ c.store.dict.Get owner = some o)) :
    Get M c owner mode
      = .ok (some c.store.heap.next,
          { c with bases := c.bases.set (ToKey owner) c.store.heap.next,
                   store := { c.store with
                     heap := (c.store.heap.alloc (c.store.heap.obj o).Clone).2 } }) := by
  have hn : ¬ (c.readonly = true ∧ mode ≠ .ModeRead) := by simp [hw]
  have hk : ∀ cached, c.keep (ToKey owner) o cached mode
      = (some c.store.heap.next,
          { c with bases := c.bases.set (ToKey owner) c.store.heap.next,
                   store := { c.store with
                     heap := (c.store.heap.alloc (c.store.heap.obj o).Clone).2 } }) := by
    intro cached
    unfold keep
    rw [if_pos ⟨hfrozen, hmode⟩]
    rfl
  unfold Get
  rw [if_neg hn]
  dsimp only
  rcases hres with h | ⟨h1, h2⟩
  · rw [h]
    dsimp only
    rw [hk]
  · rw [h1, h2]
    dsimp only
    rw [hk]

/-- `Get` in mode `ModeRead` on a cache that resolves the owner to the record
`o`, cached or loaded: `o` itself is returned and cached. -/
theorem Get_read {F : Type} (M : RecordModel F) (c : PRepBaseCache F) (owner : Address)
    (o : Nat)
    (hres : c.bases.get (ToKey owner) = some o
      ∨ (c.bases.get (ToKey owner) = none ∧ c.store.dict.Get owner = some o)) :
    ∃ cR, Get M c owner .ModeRead = .ok (some o, cR)
      ∧ cR.store = c.store ∧ cR.readonly = c.readonly
      ∧ cR.bases.get (ToKey owner) = some o := by
  have hn : ¬ (c.readonly = true ∧ CacheMode.ModeRead ≠ .ModeRead) := by simp
  unfold Get
  rw [if_neg hn]
  dsimp only
  rcases hres with h | ⟨h1, h2⟩
  · rw [h]
    dsimp only
    refine ⟨c, ?_, rfl, rfl, h⟩
    simp [keep]
  · rw [h1, h2]
    dsimp only
    refine ⟨{ c with bases := c.bases.set (ToKey owner) o }, ?_, rfl, rfl, ?_⟩
    · simp [keep]
    · exact GoMap.get_set_self _ _ _

end PRepBaseCache

namespace PRepBaseCache

theorem keep_frozen {F : Type} (c : PRepBaseCache F) (key base : Nat) (cached : Bool)
    (mode : CacheMode) (hb : (c.store.heap.obj base).readonly = true)
    (hmode : mode ≠ .ModeRead) :
    c.keep key base cached mode
      = (some c.store.heap.next,
          { c with bases := c.bases.set key c.store.heap.next,
                   store := { c.store with
                     heap := (c.store.heap.alloc (c.store.heap.obj base).Clone).2 } }) := by
  unfold keep
  rw [if_pos ⟨hb, hmode⟩]
  rfl

theorem keep_plain {F : Type} (c : PRepBaseCache F) (key base : Nat) (cached : Bool)
    (mode : CacheMode) (hb : (c.store.heap.obj base).readonly = false) :
    c.keep key base cached mode
      = (some base, if cached = false then { c with bases := c.bases.set key base } else c) := by
  unfold keep
  have hn : ¬ ((c.store.heap.obj base).IsReadonly = true ∧ mode ≠ .ModeRead) := by
    simp [PRepBase.IsReadonly, hb]
  rw [if_neg hn]
  split_ifs <;> rfl

/-- `Get` in a writing mode on a writable cache never hands out a frozen
record: the record it returns is not frozen, it is the one the map holds for
the owner afterwards, the dictionary is as before and so is every object that
existed before. -/
theorem Get_write_spec {F : Type} (M : RecordModel F) (c : PRepBaseCache F)
    (owner : Address) (mode : CacheMode) (hw : c.readonly = false)
    (hmode : mode ≠ .ModeRead) (r : Nat) (c' : PRepBaseCache F)
    (h : Get M c owner mode = .ok (some r, c')) :
    (c'.store.heap.obj r).readonly = false
    ∧ c'.bases.get (ToKey owner) = some r
    ∧ c'.store.dict = c.store.dict
    ∧ (∀ x, x ≠ c.store.heap.next → c'.store.heap.obj x = c.store.heap.obj x) := by
  have hn : ¬ (c.readonly = true ∧ mode ≠ .ModeRead) := by simp [hw]
  -- the two ways in which `keep` ends
  have hkeep : ∀ (b : Nat) (cached : Bool),
      (cached = true → c.bases.get (ToKey owner) = some b) →
      c.keep (ToKey owner) b cached mode = (some r, c') →
      (c'.store.heap.obj r).readonly = false
      ∧ c'.bases.get (ToKey owner) = some r
      ∧ c'.store.dict = c.store.dict
      ∧ (∀ x, x ≠ c.store.heap.next → c'.store.heap.obj x = c.store.heap.obj x) := by
    intro b cached hcached hk
    by_cases hb : (c.store.heap.obj b).readonly = true
    · rw [keep_frozen c _ b cached mode hb hmode] at hk
      simp only [Prod.mk.injEq, Option.some.injEq] at hk
      obtain ⟨hr, hc⟩ := hk
      subst hr; subst hc
      refine ⟨by simp [Heap.alloc, PRepBase.Clone], GoMap.get_set_self _ _ _, rfl, ?_⟩
      intro x hx
      simp [Heap.alloc, hx]
    · have hb' : (c.store.heap.obj b).readonly = false := by simpa using hb
      rw [keep_plain c _ b cached mode hb'] at hk
      simp only [Prod.mk.injEq, Option.some.injEq] at hk
      obtain ⟨hr, hc⟩ := hk
      subst hr; subst hc
      cases cached with
      | false => exact ⟨hb', GoMap.get_set_self _ _ _, rfl, fun _ _ => rfl⟩
      | true => exact ⟨hb', hcached rfl, rfl, fun _ _ => rfl⟩
  unfold Get at h
  rw [if_neg hn] at h
  dsimp only at h
  cases hget : c.bases.get (ToKey owner) with
  | some b =>
    rw [hget] at h
    exact hkeep b true (fun _ => hget) (Except.ok.inj h)
  | none =>
    rw [hget] at h
    dsimp only at h
    cases hd : c.store.dict.Get owner with
    | some o =>
      rw [hd] at h
      exact hkeep o false (fun hf => absurd hf (by simp)) (Except.ok.inj h)
    | none =>
      rw [hd] at h
      dsimp only at h
      split_ifs at h with hm
      · have hk := Except.ok.inj h
        have hnew : ((c.store.heap.alloc (NewPRepBase M)).2.obj
            (c.store.heap.alloc (NewPRepBase M)).1).readonly = false := by
          simp [Heap.alloc, NewPRepBase]
        rw [keep_plain _ _ _ false mode hnew] at hk
        simp only [Prod.mk.injEq, Option.some.injEq, if_true] at hk
        obtain ⟨hr, hc⟩ := hk
        subst hr; subst hc
        refine ⟨by simp [Heap.alloc, NewPRepBase], GoMap.get_set_self _ _ _, rfl, ?_⟩
        intro x hx
        have hx' : ¬ x = c.store.heap.next := hx
        simp [Heap.alloc, hx']
      · have := Except.ok.inj h
        simp at this

end PRepBaseCache

open PRepBaseCache in
/-- C13. Clone on write. `Get` in a mode other than `ModeRead` on a writable
cache never returns or caches a frozen record: what it returns is not frozen,
is what the map then holds for the owner, and no object that existed before
nor the dictionary has changed. In particular, let the store hold for the
owner a frozen record `o` (an allocated object), and let the cache either not
hold the owner or hold `o` for it. Then `Get` returns a new object, different
from `o`: a clone with the fields of `o`, not frozen, and it is the clone that
the cache now holds; `o` and the dictionary are as before, and they stay so
when the caller writes any field values to the clone. The same holds when
`Get` in mode `ModeRead` ran first: that call returns and caches `o` itself,
and the writing call that follows returns and caches a clone. -/
theorem Get_clone_on_write {F : Type} (M : RecordModel F) (c : PRepBaseCache F)
    (owner : Address) (mode : CacheMode)
    (hw : c.readonly = false) (hmode : mode ≠ .ModeRead) :
    (∀ r c', Get M c owner mode = .ok (some r, c') →
      (c'.store.heap.obj r).readonly = false
      ∧ c'.bases.get (ToKey owner) = some r
      ∧ c'.store.dict = c.store.dict
      ∧ (∀ x, x ≠ c.store.heap.next → c'.store.heap.obj x = c.store.heap.obj x))
    ∧ (∀ o, c.store.dict.Get owner = some o → (c.store.heap.obj o).readonly = true →
      o < c.store.heap.next →
      (c.bases.get (ToKey owner) = none ∨ c.bases.get (ToKey owner) = some o) →
      (∃ c', Get M c owner mode = .ok (some c.store.heap.next, c')
        ∧ c.store.heap.next ≠ o
        ∧ c'.bases.get (ToKey owner) = some c.store.heap.next
        ∧ c'.store.heap.obj c.store.heap.next = ⟨false, (c.store.heap.obj o).fields⟩
        ∧ c'.store.heap.obj o = c.store.heap.obj o
        ∧ c'.store.dict = c.store.dict
        ∧ ∀ v, (c'.setFields c.store.heap.next v).store.heap.obj o = c.store.heap.obj o
            ∧ (c'.setFields c.store.heap.next v).store.dict.Get owner = some o
            ∧ ((c'.setFields c.store.heap.next v).store.heap.obj
                c.store.heap.next).fields = v)
      ∧ (∃ cR, Get M c owner .ModeRead = .ok (some o, cR)
        ∧ cR.bases.get (ToKey owner) = some o
        ∧ cR.store = c.store
        ∧ ∃ c'', Get M cR owner mode = .ok (some c.store.heap.next, c'')
          ∧ c''.bases.get (ToKey owner) = some c.store.heap.next
          ∧ c''.store.heap.obj o = c.store.heap.obj o
          ∧ c''.store.dict = c.store.dict
          ∧ ∀ v, (c''.setFields c.store.heap.next v).store.heap.obj o = c.store.heap.obj o
              ∧ (c''.setFields c.store.heap.next v).store.dict.Get owner = some o)) := by
  refine ⟨fun r c' h => Get_write_spec M c owner mode hw hmode r c' h, ?_⟩
  intro o hstore hfrozen halloc hcache
  have hne : ¬ o = c.store.heap.next := by omega
  have hres : c.bases.get (ToKey owner) = some o
      ∨ (c.bases.get (ToKey owner) = none ∧ c.store.dict.Get owner = some o) := by
    rcases hcache with h | h
    · exact Or.inr ⟨h, hstore⟩
    · exact Or.inl h
  constructor
  · refine ⟨_, Get_frozen M c owner mode o hw hmode hfrozen hres, fun h => hne h.symm,
      GoMap.get_set_self _ _ _, ?_, ?_, rfl, ?_⟩
    · simp [Heap.alloc, PRepBase.Clone]
    · simp [Heap.alloc, hne]
    · intro v
      refine ⟨?_, hstore, ?_⟩
      · simp [setFields, Heap.alloc, Heap.write, hne]
      · simp [setFields, Heap.alloc, Heap.write]
  · obtain ⟨cR, hR, hst, hro, hget⟩ := Get_read M c owner o hres
    refine ⟨cR, hR, hget, hst, ?_⟩
    have hfr : (cR.store.heap.obj o).readonly = true := by rw [hst]; exact hfrozen
    have hG := Get_frozen M cR owner mode o (by rw [hro]; exact hw) hmode hfr (Or.inl hget)
    rw [hst] at hG
    refine ⟨_, hG, GoMap.get_set_self _ _ _, ?_, ?_, ?_⟩
    · simp [Heap.alloc, hne]
    · simp [hst]
    · intro v
      refine ⟨?_, ?_⟩
      · simp [setFields, Heap.alloc, Heap.write, hne]
      · simpa [setFields] using hstore

open PRepBaseCache in
/-- Witness of C13: account 1 on a fresh writable cache over `sampleStore`:
the store holds the frozen object 0, the writing call returns the new
object 2. -/
theorem Get_clone_on_write_witness :
    ∃ c', Get sampleModel (NewPRepBaseCache sampleStore false) ⟨1⟩ .ModeWrite
        = .ok (some 2, c')
      ∧ (2 : Nat) ≠ 0
      ∧ c'.store.heap.obj 2 = ⟨false, 7⟩
      ∧ (c'.setFields 2 5).store.heap.obj 0 = sampleStore.heap.obj 0 :=
  have h := ((Get_clone_on_write sampleModel (NewPRepBaseCache sampleStore false) ⟨1⟩
    .ModeWrite rfl (by decide)).2 0 rfl rfl (by decide) (Or.inl rfl)).1
  h.elim fun c' hc => ⟨c', hc.1, hc.2.1, hc.2.2.2.1, (hc.2.2.2.2.2.2 5).1⟩

/-! ## The base cache: `Flush` -/

namespace PRepBaseCache

/-- What one run of the body of the loop of `Flush` does, for the entry `e`. -/
theorem flushEntry_spec {F : Type} (M : RecordModel F) (c : PRepBaseCache F)
    (e : Nat × Nat) :
    ∃ c1, flushEntry M c e = .ok c1
      ∧ c1.readonly = c.readonly
      ∧ c1.store.heap.next = c.store.heap.next
      ∧ (∀ x, x ≠ e.2 → c1.store.heap.obj x = c.store.heap.obj x)
      ∧ (∀ a, ToKey a ≠ e.1 → c1.store.dict.Get a = c.store.dict.Get a)
      ∧ (∀ e0, e0 ∈ c1.bases.entries ↔ e0 ∈ c.bases.entries
          ∧ (e.1 = e0.1 → ¬ ((c.store.heap.obj e.2).readonly = false
              ∧ M.IsEmpty (c.store.heap.obj e.2).fields = true)))
      ∧ ((c.store.heap.obj e.2).readonly = true →
          c1.store.dict.Get ⟨e.1⟩ = c.store.dict.Get ⟨e.1⟩
          ∧ c1.store.heap.obj e.2 = c.store.heap.obj e.2)
      ∧ ((c.store.heap.obj e.2).readonly = false →
          M.IsEmpty (c.store.heap.obj e.2).fields = true →
          c1.store.dict.Get ⟨e.1⟩ = none ∧ c1.store.heap.obj e.2 = c.store.heap.obj e.2)
      ∧ ((c.store.heap.obj e.2).readonly = false →
          M.IsEmpty (c.store.heap.obj e.2).fields = false →
          c1.store.dict.Get ⟨e.1⟩ = some e.2
          ∧ c1.store.heap.obj e.2 = ⟨true, (c.store.heap.obj e.2).fields⟩) := by
  have hkey : ∀ a : Address, ToKey a ≠ e.1 → ¬ a = ⟨e.1⟩ := by
    intro a ha h
    apply ha
    rw [h]
    rfl
  by_cases hro : (c.store.heap.obj e.2).readonly = true
  · refine ⟨c, ?_, rfl, rfl, fun _ _ => rfl, fun _ _ => rfl, ?_, ?_, ?_, ?_⟩
    · simp [flushEntry, BytesToAddress, PRepBase.IsReadonly, hro]
    · intro e0
      simp [hro]
    · intro _; exact ⟨rfl, rfl⟩
    · intro h; rw [hro] at h; exact absurd h (by simp)
    · intro h; rw [hro] at h; exact absurd h (by simp)
  · have hro' : (c.store.heap.obj e.2).readonly = false := by
      simpa using hro
    by_cases hemp : M.IsEmpty (c.store.heap.obj e.2).fields = true
    · refine ⟨{ c with bases := c.bases.delete e.1,
                       store := { c.store with dict := c.store.dict.Delete ⟨e.1⟩ } },
        ?_, rfl, rfl, fun _ _ => rfl, ?_, ?_, ?_, ?_, ?_⟩
      · simp [flushEntry, BytesToAddress, PRepBase.IsReadonly, PRepBase.IsEmpty, hro', hemp]
      · intro a ha
        simp [DictDB.Delete, DictDB.Get, hkey a ha]
      · intro e0
        rw [GoMap.mem_delete]
        constructor
        · rintro ⟨h1, h2⟩
          exact ⟨h1, fun h => absurd h.symm h2⟩
        · rintro ⟨h1, h2⟩
          refine ⟨h1, fun h => ?_⟩
          exact h2 h.symm ⟨hro', hemp⟩
      · intro h; rw [hro'] at h; exact absurd h (by simp)
      · intro _ _
        exact ⟨by simp [DictDB.Delete, DictDB.Get], rfl⟩
      · intro _ h; rw [hemp] at h; exact absurd h (by simp)
    · have hemp' : M.IsEmpty (c.store.heap.obj e.2).fields = false := by
        simpa using hemp
      refine ⟨{ c with store :=
                  { heap := c.store.heap.write e.2 (c.store.heap.obj e.2).freeze,
                    dict := c.store.dict.Set ⟨e.1⟩ e.2 } },
        ?_, rfl, rfl, ?_, ?_, ?_, ?_, ?_, ?_⟩
      · simp [flushEntry, BytesToAddress, PRepBase.IsReadonly, PRepBase.IsEmpty, hro', hemp']
      · intro x hx
        simp [Heap.write, hx]
      · intro a ha
        simp [DictDB.Set, DictDB.Get, hkey a ha]
      · intro e0
        simp [hemp']
      · intro h; rw [hro'] at h; exact absurd h (by simp)
      · intro _ h; rw [hemp'] at h; exact absurd h (by simp)
      · intro _ _
        exact ⟨by simp [DictDB.Set, DictDB.Get], by simp [Heap.write, PRepBase.freeze]⟩

/-- What the loop of `Flush` does over entries with different keys and
different pointers, entry by entry, in terms of the state before the loop. -/
theorem flushLoop_spec {F : Type} (M : RecordModel F) :
    ∀ (l : List (Nat × Nat)) (c : PRepBaseCache F),
      (l.map Prod.fst).Nodup → (l.map Prod.snd).Nodup →
      ∃ c', flushLoop M l c = .ok c'
        ∧ c'.readonly = c.readonly
        ∧ c'.store.heap.next = c.store.heap.next
        ∧ (∀ x, x ∉ l.map Prod.snd → c'.store.heap.obj x = c.store.heap.obj x)
        ∧ (∀ a, ToKey a ∉ l.map Prod.fst → c'.store.dict.Get a = c.store.dict.Get a)
        ∧ (∀ e0, e0 ∈ c'.bases.entries ↔ e0 ∈ c.bases.entries
            ∧ ∀ e ∈ l, e.1 = e0.1 → ¬ ((c.store.heap.obj e.2).readonly = false
                ∧ M.IsEmpty (c.store.heap.obj e.2).fields = true))
        ∧ (∀ e ∈ l,
            ((c.store.heap.obj e.2).readonly = true →
              c'.store.dict.Get ⟨e.1⟩ = c.store.dict.Get ⟨e.1⟩
              ∧ c'.store.heap.obj e.2 = c.store.heap.obj e.2)
            ∧ ((c.store.heap.obj e.2).readonly = false →
              M.IsEmpty (c.store.heap.obj e.2).fields = true →
              c'.store.dict.Get ⟨e.1⟩ = none
              ∧ c'.store.heap.obj e.2 = c.store.heap.obj e.2)
            ∧ ((c.store.heap.obj e.2).readonly = false →
              M.IsEmpty (c.store.heap.obj e.2).fields = false →
              c'.store.dict.Get ⟨e.1⟩ = some e.2
              ∧ c'.store.heap.obj e.2 = ⟨true, (c.store.heap.obj e.2).fields⟩)) := by
  intro l
  induction l with
  | nil =>
    intro c _ _
    refine ⟨c, rfl, rfl, rfl, fun _ _ => rfl, fun _ _ => rfl, ?_, ?_⟩
    · intro e0; simp
    · intro e he; simp at he
  | cons e rest ih =>
    intro c hk hr
    simp only [List.map_cons, List.nodup_cons] at hk hr
    obtain ⟨c1, hc1, h1ro, h1next, h1obj, h1dict, h1mem, h1a, h1b, h1c⟩ :=
      flushEntry_spec M c e
    obtain ⟨c', hc', h2ro, h2next, h2obj, h2dict, h2mem, h2ent⟩ := ih c1 hk.2 hr.2
    -- the entries still to visit are untouched by the first run
    have hrest_obj : ∀ e' ∈ rest, c1.store.heap.obj e'.2 = c.store.heap.obj e'.2 := by
      intro e' he'
      apply h1obj
      intro h
      apply hr.1
      rw [← h]
      exact List.mem_map.2 ⟨e', he', rfl⟩
    have hrest_key : ∀ e' ∈ rest, e'.1 ≠ e.1 := by
      intro e' he' h
      apply hk.1
      rw [← h]
      exact List.mem_map.2 ⟨e', he', rfl⟩
    have hrest_dict : ∀ e' ∈ rest,
        c1.store.dict.Get ⟨e'.1⟩ = c.store.dict.Get ⟨e'.1⟩ := by
      intro e' he'
      exact h1dict ⟨e'.1⟩ (hrest_key e' he')
    have hhead_obj : c'.store.heap.obj e.2 = c1.store.heap.obj e.2 := h2obj e.2 hr.1
    have hhead_dict : c'.store.dict.Get ⟨e.1⟩ = c1.store.dict.Get ⟨e.1⟩ :=
      h2dict ⟨e.1⟩ hk.1
    refine ⟨c', ?_, by rw [h2ro, h1ro], by rw [h2next, h1next], ?_, ?_, ?_, ?_⟩
    · simp only [flushLoop, hc1]
      exact hc'
    · intro x hx
      simp only [List.map_cons, List.mem_cons, not_or] at hx
      rw [h2obj x hx.2, h1obj x hx.1]
    · intro a ha
      simp only [List.map_cons, List.mem_cons, not_or] at ha
      rw [h2dict a ha.2, h1dict a ha.1]
    · intro e0
      rw [h2mem e0, h1mem e0]
      constructor
      · rintro ⟨⟨hm, hhead⟩, hothers⟩
        refine ⟨hm, ?_⟩
        intro e' he' hkey
        rcases List.mem_cons.1 he' with h | h
        · subst h; exact hhead hkey
        · have := hothers e' h hkey
          rwa [hrest_obj e' h] at this
      · rintro ⟨hm, hall⟩
        refine ⟨⟨hm, hall e (List.mem_cons_self _ _)⟩, ?_⟩
        intro e' he' hkey
        rw [hrest_obj e' he']
        exact hall e' (List.mem_cons_of_mem _ he') hkey
    · intro e' he'
      rcases List.mem_cons.1 he' with h | h
      · subst h
        rw [hhead_obj, hhead_dict]
        exact ⟨h1a, h1b, h1c⟩
      · have := h2ent e' h
        rw [hrest_obj e' h, hrest_dict e' h] at this
        exact this

/-- A loop of `Flush` over frozen records changes nothing. -/
theorem flushLoop_frozen {F : Type} (M : RecordModel F) :
    ∀ (l : List (Nat × Nat)) (c : PRepBaseCache F),
      (∀ e ∈ l, (c.store.heap.obj e.2).readonly = true) → flushLoop M l c = .ok c := by
  intro l
  induction l with
  | nil => intro c _; rfl
  | cons e rest ih =>
    intro c h
    have he : flushEntry M c e = .ok c := by
      simp [flushEntry, BytesToAddress, PRepBase.IsReadonly, h e (List.mem_cons_self _ _)]
    simp only [flushLoop, he]
    exact ih c (fun e' he' => h e' (List.mem_cons_of_mem _ he'))

end PRepBaseCache

theorem GoMap.get_none_of_forall (m : GoMap) (k : Nat) (h : ∀ e ∈ m.entries, e.1 ≠ k) :
    m.get k = none := by
  unfold GoMap.get
  simp only [Option.map_eq_none', List.find?_eq_none, decide_eq_true_eq]
  exact h

theorem GoMap.eq_of_key (l : List (Nat × Nat)) (hk : (l.map Prod.fst).Nodup)
    (e e' : Nat × Nat) (he : e ∈ l) (he' : e' ∈ l) (h : e.1 = e'.1) : e = e' :=
  List.inj_on_of_nodup_map hk he he' h

open PRepBaseCache in
/-- C18. For a cache whose map is well formed (no key twice, no record under
two keys), `Flush` returns without a panic and: an entry whose record is
frozen stays in the map, its record and the store entry of its key being
untouched; an entry whose record is not frozen and is empty is dropped from
the map and the store entry of its key is deleted; any other entry stays in
the map, its record is frozen, with the same fields, and the store entry of
its key is set to it. Store entries of keys that are not in the map and
objects that are not in the map are unchanged. Hence every entry of the map
after `Flush` was in it before and holds a frozen record, and a second `Flush`
returns the very same cache and store. -/
theorem Flush_postcondition {F : Type} (M : RecordModel F) (c : PRepBaseCache F)
    (hwf : c.bases.WellFormed) :
    ∃ c', Flush M c = .ok c'
      ∧ c'.readonly = c.readonly
      ∧ (∀ e ∈ c.bases.entries,
          ((c.store.heap.obj e.2).readonly = true →
            e ∈ c'.bases.entries
            ∧ c'.store.dict.Get ⟨e.1⟩ = c.store.dict.Get ⟨e.1⟩
            ∧ c'.store.heap.obj e.2 = c.store.heap.obj e.2)
          ∧ ((c.store.heap.obj e.2).readonly = false →
            M.IsEmpty (c.store.heap.obj e.2).fields = true →
            c'.bases.get e.1 = none ∧ c'.store.dict.Get ⟨e.1⟩ = none)
          ∧ ((c.store.heap.obj e.2).readonly = false →
            M.IsEmpty (c.store.heap.obj e.2).fields = false →
            e ∈ c'.bases.entries
            ∧ c'.store.dict.Get ⟨e.1⟩ = some e.2
            ∧ c'.store.heap.obj e.2 = ⟨true, (c.store.heap.obj e.2).fields⟩))
      ∧ (∀ a, c.bases.get (ToKey a) = none → c'.store.dict.Get a = c.store.dict.Get a)
      ∧ (∀ x, (∀ e ∈ c.bases.entries, e.2 ≠ x) → c'.store.heap.obj x = c.store.heap.obj x)
      ∧ (∀ e ∈ c'.bases.entries,
          e ∈ c.bases.entries ∧ (c'.store.heap.obj e.2).readonly = true)
      ∧ Flush M c' = .ok c' := by
  obtain ⟨c', hc', hro, _, hobj, hdict, hmem, hent⟩ :=
    flushLoop_spec M c.bases.entries c hwf.1 hwf.2
  -- an entry of the map is the only one with its key
  have hkeep : ∀ e ∈ c.bases.entries,
      ¬ ((c.store.heap.obj e.2).readonly = false
        ∧ M.IsEmpty (c.store.heap.obj e.2).fields = true) → e ∈ c'.bases.entries := by
    intro e he hnd
    refine (hmem e).2 ⟨he, ?_⟩
    intro e' he' hkey
    rw [GoMap.eq_of_key _ hwf.1 e' e he' he hkey]
    exact hnd
  have hfrozen : ∀ e ∈ c'.bases.entries,
      e ∈ c.bases.entries ∧ (c'.store.heap.obj e.2).readonly = true := by
    intro e he
    obtain ⟨hin, hnd⟩ := (hmem e).1 he
    refine ⟨hin, ?_⟩
    have hnd' := hnd e hin rfl
    obtain ⟨ha, _, hc⟩ := hent e hin
    by_cases hr : (c.store.heap.obj e.2).readonly = true
    · rw [(ha hr).2]; exact hr
    · have hr' : (c.store.heap.obj e.2).readonly = false := by simpa using hr
      have hemp : M.IsEmpty (c.store.heap.obj e.2).fields = false := by
        cases h : M.IsEmpty (c.store.heap.obj e.2).fields
        · rfl
        · exact absurd ⟨hr', h⟩ hnd'
      rw [(hc hr' hemp).2]
  refine ⟨c', hc', hro, ?_, ?_, ?_, hfrozen, ?_⟩
  · intro e he
    obtain ⟨ha, hb, hcw⟩ := hent e he
    refine ⟨?_, ?_, ?_⟩
    · intro hr
      exact ⟨hkeep e he (by simp [hr]), (ha hr).1, (ha hr).2⟩
    · intro hr hemp
      refine ⟨?_, (hb hr hemp).1⟩
      apply GoMap.get_none_of_forall
      intro e0 he0 hkey
      exact ((hmem e0).1 he0).2 e he hkey.symm ⟨hr, hemp⟩
    · intro hr hemp
      exact ⟨hkeep e he (by simp [hemp]), (hcw hr hemp).1, (hcw hr hemp).2⟩
  · intro a ha
    apply hdict
    intro hin
    obtain ⟨e, he, hk⟩ := List.mem_map.1 hin
    exact GoMap.get_eq_none _ _ ha e he hk
  · intro x hx
    apply hobj
    intro hin
    obtain ⟨e, he, hk⟩ := List.mem_map.1 hin
    exact hx e he hk
  · exact flushLoop_frozen M c'.bases.entries c' (fun e he => (hfrozen e he).2)

open PRepBaseCache in
/-- Witness of C18: in `sampleCache` the emptied record of account 2 is
dropped and its store entry deleted, and the record of account 3 is frozen
and stored. -/
theorem Flush_postcondition_witness :
    sampleCache.bases.WellFormed
    ∧ ∃ c', Flush sampleModel sampleCache = .ok c'
      ∧ c'.bases.get 2 = none ∧ c'.store.dict.Get ⟨2⟩ = none
      ∧ c'.store.dict.Get ⟨3⟩ = some 3 ∧ c'.store.heap.obj 3 = ⟨true, 5⟩
      ∧ Flush sampleModel c' = .ok c' :=
  have hwf : sampleCache.bases.WellFormed := ⟨by decide, by decide⟩
  ⟨hwf, (Flush_postcondition sampleModel sampleCache hwf).elim fun c' h =>
    ⟨c', h.1,
      ((h.2.2.1 (2, 2) (by decide)).2.1 rfl rfl).1,
      ((h.2.2.1 (2, 2) (by decide)).2.1 rfl rfl).2,
      ((h.2.2.1 (3, 3) (by decide)).2.2 rfl rfl).2.1,
      ((h.2.2.1 (3, 3) (by decide)).2.2 rfl rfl).2.2,
      h.2.2.2.2.2.2⟩⟩

/-! ## The base cache: the round trip of claim C12 -/

namespace PRepBaseCache

/-- `Get` in mode `ModeCreateIfNotExist` on a writable, well-formed cache
returns a record that is not frozen and that the map, still well formed,
holds for the owner; the dictionary is as before. -/
theorem Get_create {F : Type} (M : RecordModel F) (c : PRepBaseCache F) (owner : Address)
    (hw : c.readonly = false) (hwf : c.WellFormed) :
    ∃ r c1, Get M c owner .ModeCreateIfNotExist = .ok (some r, c1)
      ∧ c1.bases.WellFormed
      ∧ (ToKey owner, r) ∈ c1.bases.entries
      ∧ (c1.store.heap.obj r).readonly = false
      ∧ c1.store.dict = c.store.dict
      ∧ c1.readonly = false := by
  obtain ⟨hmap, hlt, hown⟩ := hwf
  have hn : ¬ (c.readonly = true ∧ CacheMode.ModeCreateIfNotExist ≠ .ModeRead) := by
    simp [hw]
  have hmode : CacheMode.ModeCreateIfNotExist ≠ .ModeRead := by decide
  -- a new object may enter the map
  have hfresh : (c.bases.set (ToKey owner) c.store.heap.next).WellFormed := by
    apply GoMap.set_wellFormed _ _ _ hmap
    intro e he _ h
    have := hlt e he
    omega
  -- a frozen record is cloned
  have hclone : ∀ (b : Nat) (cached : Bool), (c.store.heap.obj b).readonly = true →
      ∃ r c1, c.keep (ToKey owner) b cached .ModeCreateIfNotExist = (some r, c1)
        ∧ c1.bases.WellFormed ∧ (ToKey owner, r) ∈ c1.bases.entries
        ∧ (c1.store.heap.obj r).readonly = false
        ∧ c1.store.dict = c.store.dict ∧ c1.readonly = false := by
    intro b cached hb
    refine ⟨c.store.heap.next,
      { c with bases := c.bases.set (ToKey owner) c.store.heap.next,
               store := { c.store with
                 heap := (c.store.heap.alloc (c.store.heap.obj b).Clone).2 } },
      ?_, hfresh, ?_, ?_, rfl, hw⟩
    · unfold keep
      rw [if_pos ⟨hb, hmode⟩]
      rfl
    · exact (GoMap.mem_set _ _ _ _).2 (Or.inl rfl)
    · simp [Heap.alloc, PRepBase.Clone]
  unfold Get
  rw [if_neg hn]
  dsimp only
  cases hget : c.bases.get (ToKey owner) with
  | some b =>
    dsimp only
    by_cases hb : (c.store.heap.obj b).readonly = true
    · obtain ⟨r, c1, h, rest⟩ := hclone b true hb
      exact ⟨r, c1, by rw [h], rest⟩
    · have hb' : (c.store.heap.obj b).readonly = false := by simpa using hb
      refine ⟨b, c, ?_, hmap, GoMap.get_eq_some _ _ _ hget, hb', rfl, hw⟩
      simp [keep, PRepBase.IsReadonly, hb']
  | none =>
    dsimp only
    cases hd : c.store.dict.Get owner with
    | none =>
      dsimp only
      rw [if_pos rfl]
      refine ⟨c.store.heap.next,
        { c with bases := c.bases.set (ToKey owner) c.store.heap.next,
                 store := { c.store with heap := (c.store.heap.alloc (NewPRepBase M)).2 } },
        ?_, hfresh, ?_, ?_, rfl, hw⟩
      · simp [keep, Heap.alloc, NewPRepBase, PRepBase.IsReadonly]
      · exact (GoMap.mem_set _ _ _ _).2 (Or.inl rfl)
      · simp [Heap.alloc, NewPRepBase]
    | some o =>
      dsimp only
      by_cases hb : (c.store.heap.obj o).readonly = true
      · obtain ⟨r, c1, h, rest⟩ := hclone o false hb
        exact ⟨r, c1, by rw [h], rest⟩
      · have hb' : (c.store.heap.obj o).readonly = false := by simpa using hb
        refine ⟨o, { c with bases := c.bases.set (ToKey owner) o }, ?_, ?_, ?_, hb', rfl, hw⟩
        · simp [keep, PRepBase.IsReadonly, hb']
        · apply GoMap.set_wellFormed _ _ _ hmap
          intro e he hk h
          apply hk
          rw [← hown e he owner (by rw [h]; exact hd)]
        · exact (GoMap.mem_set _ _ _ _).2 (Or.inl rfl)

/-- `Flush` of a well-formed map that holds for the owner a record `r` that
is not frozen, followed by `Get` in mode `ModeRead` on a fresh cache over the
same store: `r` comes back, frozen, with its fields, when they are not empty;
nothing comes back when they are, the store entry being deleted and the entry
dropped. -/
theorem Flush_then_read {F : Type} (M : RecordModel F) (c1 : PRepBaseCache F)
    (owner : Address) (r : Nat) (ro : Bool) (hwf : c1.bases.WellFormed)
    (hmem : (ToKey owner, r) ∈ c1.bases.entries)
    (hnro : (c1.store.heap.obj r).readonly = false) :
    ∃ c2, Flush M c1 = .ok c2
      ∧ (M.IsEmpty (c1.store.heap.obj r).fields = false →
          (∃ c3, Get M (NewPRepBaseCache c2.store ro) owner .ModeRead = .ok (some r, c3)
            ∧ c3.store.heap.obj r = ⟨true, (c1.store.heap.obj r).fields⟩)
          ∧ c2.store.dict.Get owner = some r)
      ∧ (M.IsEmpty (c1.store.heap.obj r).fields = true →
          c2.bases.get (ToKey owner) = none
          ∧ c2.store.dict.Get owner = none
          ∧ Get M (NewPRepBaseCache c2.store ro) owner .ModeRead
              = .ok (none, NewPRepBaseCache c2.store ro)) := by
  obtain ⟨c2, hc2, _, _, _, hdict, hmemb, hent⟩ :=
    flushLoop_spec M c1.bases.entries c1 hwf.1 hwf.2
  have hn : ¬ ((NewPRepBaseCache c2.store ro).readonly = true
      ∧ CacheMode.ModeRead ≠ .ModeRead) := by simp
  have hnew : (NewPRepBaseCache c2.store ro).bases.get (ToKey owner) = none := by
    simp [NewPRepBaseCache, GoMap.get]
  obtain ⟨_, hb, hcw⟩ := hent (ToKey owner, r) hmem
  dsimp only at hb hcw
  rw [Address.eta] at hb hcw
  refine ⟨c2, hc2, ?_, ?_⟩
  · intro hemp
    obtain ⟨hd, ho⟩ := hcw hnro hemp
    refine ⟨⟨{ NewPRepBaseCache c2.store ro with
        bases := (NewPRepBaseCache c2.store ro).bases.set (ToKey owner) r }, ?_, ho⟩, hd⟩
    unfold Get
    rw [if_neg hn]
    dsimp only
    rw [hnew]
    dsimp only
    have hd' : (NewPRepBaseCache c2.store ro).store.dict.Get owner = some r := hd
    rw [hd']
    simp [keep]
  · intro hemp
    obtain ⟨hd, _⟩ := hb hnro hemp
    refine ⟨?_, hd, ?_⟩
    · apply GoMap.get_none_of_forall
      intro e0 he0 hkey
      exact ((hmemb e0).1 he0).2 (ToKey owner, r) hmem hkey.symm ⟨hnro, hemp⟩
    · unfold Get
      rw [if_neg hn]
      dsimp only
      rw [hnew]
      dsimp only
      have hd' : (NewPRepBaseCache c2.store ro).store.dict.Get owner = none := hd
      rw [hd']
      simp

end PRepBaseCache

open PRepBaseCache in
/-- C12. Round trip through the store. On a writable, well-formed cache
`Get(owner, ModeCreateIfNotExist)` returns a record `r`. When the caller sets
its fields to `v` and calls `Flush`, then `Get(owner, ModeRead)` on a fresh
cache over the same store (read-only or not) returns a record whose fields are
`v`, if `v` is not empty; if `v` is empty, `Flush` has deleted the store entry
of the owner and dropped the entry from the map, and `Get(owner, ModeRead)` on
a fresh cache returns nil. The same holds when the record is left as it was
and is empty. -/
theorem base_cache_round_trip {F : Type} (M : RecordModel F) (c : PRepBaseCache F)
    (owner : Address) (v : F) (ro : Bool) (hw : c.readonly = false) (hwf : c.WellFormed) :
    ∃ r c1, Get M c owner .ModeCreateIfNotExist = .ok (some r, c1)
      ∧ (∃ c2, Flush M (c1.setFields r v) = .ok c2
          ∧ (M.IsEmpty v = false →
              ∃ r' c3, Get M (NewPRepBaseCache c2.store ro) owner .ModeRead
                  = .ok (some r', c3)
                ∧ (c3.store.heap.obj r').fields = v)
          ∧ (M.IsEmpty v = true →
              c2.bases.get (ToKey owner) = none
              ∧ c2.store.dict.Get owner = none
              ∧ Get M (NewPRepBaseCache c2.store ro) owner .ModeRead
                  = .ok (none, NewPRepBaseCache c2.store ro)))
      ∧ (M.IsEmpty (c1.store.heap.obj r).fields = true →
          ∃ c2, Flush M c1 = .ok c2
            ∧ c2.bases.get (ToKey owner) = none
            ∧ c2.store.dict.Get owner = none
            ∧ Get M (NewPRepBaseCache c2.store ro) owner .ModeRead
                = .ok (none, NewPRepBaseCache c2.store ro)) := by
  obtain ⟨r, c1, hget, hwf1, hmem, hnro, _, _⟩ := Get_create M c owner hw hwf
  have hobj : (c1.setFields r v).store.heap.obj r = ⟨(c1.store.heap.obj r).readonly, v⟩ := by
    simp [setFields, Heap.write]
  have hnro' : ((c1.setFields r v).store.heap.obj r).readonly = false := by
    rw [hobj]; exact hnro
  have hfields : ((c1.setFields r v).store.heap.obj r).fields = v := by
    rw [hobj]
  refine ⟨r, c1, hget, ?_, ?_⟩
  · obtain ⟨c2, hc2, hfull, hempty⟩ :=
      Flush_then_read M (c1.setFields r v) owner r ro hwf1 hmem hnro'
    rw [hfields] at hfull hempty
    refine ⟨c2, hc2, ?_, hempty⟩
    intro hv
    obtain ⟨⟨c3, hc3, ho⟩, _⟩ := hfull hv
    exact ⟨r, c3, hc3, by rw [ho]⟩
  · intro hemp
    obtain ⟨c2, hc2, _, hempty⟩ := Flush_then_read M c1 owner r ro hwf1 hmem hnro
    exact ⟨c2, hc2, hempty hemp⟩

open PRepBaseCache in
/-- Witness of C12: account 4 is new to `sampleCache` and to its store. -/
theorem base_cache_round_trip_witness :
    sampleCache.readonly = false ∧ sampleCache.WellFormed
    ∧ ∃ r c1, Get sampleModel sampleCache ⟨4⟩ .ModeCreateIfNotExist = .ok (some r, c1)
      ∧ ∃ c2, Flush sampleModel (c1.setFields r 6) = .ok c2
        ∧ ∃ r' c3, Get sampleModel (NewPRepBaseCache c2.store true) ⟨4⟩ .ModeRead
            = .ok (some r', c3)
          ∧ (c3.store.heap.obj r').fields = 6 :=
  have hwf : sampleCache.WellFormed := by
    refine ⟨⟨by decide, by decide⟩, by decide, ?_⟩
    · intro e he a h
      simp only [sampleCache, sampleStore, DictDB.Get, ToKey] at he h ⊢
      simp only [List.mem_cons, List.mem_singleton, List.not_mem_nil, or_false] at he
      rcases he with rfl | rfl | rfl <;> split_ifs at h <;> simp_all
  ⟨rfl, hwf, (base_cache_round_trip sampleModel sampleCache ⟨4⟩ 6 true rfl hwf).elim
    fun r h => h.elim fun c1 h => ⟨r, c1, h.1, h.2.1.elim fun c2 h2 =>
      ⟨c2, h2.1, h2.2.1 rfl⟩⟩⟩

/-! ## The status cache: claim C15 -/

namespace PRepStatusCache

end PRepStatusCache

namespace PRepStatusCache

end PRepStatusCache

end Goloop
